import Mathlib

/-!
Verification of the ouichefs slice allocator and slice-to-block promotion
protocol.  The definitions below are a shallow embedding of the C sources:
the slice codec of `ouichefs.h` (`pack_slice_ptr`, `extract_block_num`,
`extract_slice_num`), and the slice-aware `ouichefs_read`, `ouichefs_write`
and `convert_slice_to_block` paths of `file.c` (the "1.10 multi-slice"
revision).  Machine integers are modelled as `Nat` with
explicit reduction modulo `2^32` / `2^64` where the C types wrap; the
external block allocator (`get_free_block` / `put_block`) is modelled as a
list of available block numbers; buffer-head I/O is modelled as a total
disk function (fetch never fails).  Loops are embedded with an explicit
fuel argument chosen so that the fuel can never be exhausted before the C
loop's own exit condition fires (the free-list walk, whose termination the
C code does not guarantee either, returns `none` when its fuel runs out).
-/

set_option maxRecDepth 100000

deriving instance DecidableEq for Except

namespace OuicheFS

/-- `OUICHEFS_BLOCK_SIZE` from ouichefs.h : 4 KiB blocks. -/
def OUICHEFS_BLOCK_SIZE : Nat := 4096

/-- `OUICHEFS_MAX_FILESIZE` from ouichefs.h : 4 MiB. -/
def OUICHEFS_MAX_FILESIZE : Nat := 2 ^ 22

/-- Modulus of a C `uint32_t`. -/
def U32 : Nat := 2 ^ 32

/-- Modulus of a C `uint64_t` / `size_t`. -/
def U64 : Nat := 2 ^ 64

/-- `SLICE_MASK` from ouichefs.h : mask isolating the 5 slice bits. -/
def SLICE_MASK : Nat := 0x1F

/-- `BLOCK_MASK` from ouichefs.h : mask isolating the lower 27 block bits. -/
def BLOCK_MASK : Nat := 0x07FFFFFF

/-- `pack_slice_ptr` from ouichefs.h : pack a block number (lower 27 bits)
and slice number (upper 5 bits) into one 32-bit value. -/
def pack_slice_ptr (block_num slice_num : Nat) : Nat :=
  ((slice_num &&& SLICE_MASK) <<< 27) ||| (block_num &&& BLOCK_MASK)

/-- `extract_block_num` from ouichefs.h. -/
def extract_block_num (packed_val : Nat) : Nat :=
  packed_val &&& BLOCK_MASK

/-- `extract_slice_num` from ouichefs.h. -/
def extract_slice_num (packed_val : Nat) : Nat :=
  (packed_val >>> 27) &&& SLICE_MASK

/-- `struct ouichefs_sliced_block_meta`: the metadata kept in slice 0 of a
sliced block — the free bitmap (bit set = slice free) and the link to the
next block of the free-sliced-block list (0 = list tail). -/
structure SlicedBlockMeta where
  slice_bitmap : Nat
  next_partial_block : Nat
deriving Repr, DecidableEq

/-- The in-model content of one disk block: its slice-0 metadata view, its
raw byte payload (`bytes i` = the i-th byte of the block's 4096 bytes, used
by the slice read/write paths), and its view as a file index block
(`index i` = `index->blocks[i]`).  The three views alias the same physical
bytes in C; the model keeps them separate and applies a whole-block memset
to all of them, which is faithful for every access pattern the code
performs (a block is only ever read through the view it was last written
through). -/
structure BlockData where
  meta : SlicedBlockMeta
  bytes : Nat → Nat
  index : Nat → Nat

/-- The fields of `struct ouichefs_sb_info` that the slice paths touch. -/
structure SbInfo where
  s_free_sliced_blocks : Nat
  sliced_blocks : Nat
  total_free_slices : Nat
  small_files : Nat
  total_data_size : Nat
  total_used_size : Nat
deriving Repr, DecidableEq

/-- The mutable filesystem state: superblock info, the disk image, and the
pool of blocks the external allocator (`get_free_block`) will hand out, in
order.  An empty pool makes the allocator fail (return block 0). -/
structure FsState where
  sbi : SbInfo
  disk : Nat → BlockData
  freeBlocks : List Nat

/-- The per-file state the slice paths use: `ouichefs_inode_info.index_block`
(overloaded: 0 = nothing, else a packed slice locator or an index-block
pointer), `inode->i_size` and `inode->i_blocks`. -/
structure InodeInfo where
  index_block : Nat
  i_size : Nat
  i_blocks : Nat
deriving Repr, DecidableEq

/-- Error codes returned by the embedded paths. -/
inductive WErr where
  | EFBIG
  | ENOSPC
  | ENOMEM
  | EFAULT
  | EUCLEAN
deriving Repr, DecidableEq

/-- Point update of the disk function. -/
def updateDisk (disk : Nat → BlockData) (b : Nat) (v : BlockData) :
    Nat → BlockData :=
  fun a => if a = b then v else disk a

/-- `ouichefs_alloc_block` / `get_free_block`: pop the next available block
number, or return 0 when the volume is out of blocks. -/
def ouichefs_alloc_block (st : FsState) : Nat × FsState :=
  match st.freeBlocks with
  | [] => (0, st)
  | b :: rest => (b, { st with freeBlocks := rest })

/-- `put_block`: return a block number to the external allocator's pool. -/
def put_block (st : FsState) (b : Nat) : FsState :=
  { st with freeBlocks := b :: st.freeBlocks }

/-- The contiguous run mask `((1 << num_slices) - 1) << i` used throughout
the slice allocator. -/
def sliceRunMask (num_slices i : Nat) : Nat :=
  ((1 <<< num_slices) - 1) <<< i

/-- `bitmap &= ~(((1 << num_slices) - 1) << i)` in 32-bit arithmetic:
mark the run `[i, i+num_slices)` as used. -/
def clearRun (bitmap num_slices i : Nat) : Nat :=
  bitmap &&& ((U32 - 1) ^^^ sliceRunMask num_slices i)

/-- The inner scan of `ouichefs_write`'s free-list walk:
`for (int i = 1; i <= 32 - num_slices; i++)` looking for the first `i` with
`(bitmap & (mask << i)) == (mask << i)`.  `steps` is fuel; started at 32 it
can never run out before the loop's own exit (`i > 32 - num_slices`). -/
def scanFromAux (bitmap num_slices : Nat) : Nat → Nat → Option Nat
  | 0, _ => none
  | steps + 1, i =>
    if i ≤ 32 - num_slices then
      if bitmap &&& sliceRunMask num_slices i = sliceRunMask num_slices i then
        some i
      else scanFromAux bitmap num_slices steps (i + 1)
    else none

/-- Scan one sliced block's bitmap for the first (lowest-offset) free run of
`num_slices` slices starting at offset 1 or later. -/
def scanBitmap (bitmap num_slices : Nat) : Option Nat :=
  scanFromAux bitmap num_slices 32 1

/-- The free-sliced-block list walk of `ouichefs_write` (`while (curr)`),
looking for the first listed block with a free run.  On success the run's
bits are cleared in that block's bitmap (as the C loop does in place) and
the updated disk is returned.  `some none` = the walk reached the list tail
without a fit; `none` = the model's fuel ran out (the C loop would still be
walking — e.g. a cyclic list, on which it never terminates). -/
def searchSliced (disk : Nat → BlockData) (num_slices : Nat) :
    Nat → Nat → Option (Option (Nat × Nat × (Nat → BlockData)))
  | _, 0 => some none
  | 0, _ => none
  | fuel + 1, curr =>
    let bd := disk curr
    let bitmap := bd.meta.slice_bitmap
    match scanBitmap bitmap num_slices with
    | some i =>
      some (some (curr, i,
        updateDisk disk curr
          { bd with
            meta := { bd.meta with
              slice_bitmap := clearRun bitmap num_slices i } }))
    | none => searchSliced disk num_slices fuel bd.meta.next_partial_block

/-- `memset(dst, 0, 128); memcpy(dst, kbuf + written, to_copy);` for one
slice at byte offset `dst` of the block: the slice's 128 bytes become the
copied bytes followed by zero fill. -/
def memcpySlice (blk : Nat → Nat) (dst : Nat) (kbuf : List Nat)
    (src_off to_copy : Nat) : Nat → Nat :=
  fun a =>
    if dst ≤ a ∧ a < dst + 128 then
      if a - dst < to_copy then kbuf.getD (src_off + (a - dst)) 0 else 0
    else blk a

/-- The slice write loop of `ouichefs_write`:
`for (int s = 0; s < num_slices; s++)` copying `min(128, count - written)`
bytes into slice `slice_start + s` after zeroing it. -/
def writeSlicesGo (slice_start : Nat) (kbuf : List Nat) (count : Nat) :
    Nat → Nat → Nat → (Nat → Nat) → (Nat → Nat)
  | 0, _, _, blk => blk
  | rem + 1, s, written, blk =>
    writeSlicesGo slice_start kbuf count rem (s + 1)
      (written + min 128 (count - written))
      (memcpySlice blk ((slice_start + s) * 128) kbuf written
        (min 128 (count - written)))

/-- The whole slice write loop, started at slice index 0, 0 bytes written. -/
def writeSlicesLoop (blk : Nat → Nat) (slice_start : Nat) (kbuf : List Nat)
    (count num_slices : Nat) : Nat → Nat :=
  writeSlicesGo slice_start kbuf count num_slices 0 0 blk

/-- The read loop of `ouichefs_read`
(`while (count > 0 && pos < inode->i_size)`), chunked per slice with
`to_copy = min3(count, remain, in_slice) = min count (min remain in_slice)`
written out inline.  Fuel `count` suffices: each iteration copies at least
one byte off `count`. -/
def sliceReadGo (blk : Nat → Nat) (slice_start size : Nat) :
    Nat → Nat → Nat → List Nat
  | 0, _, _ => []
  | fuel + 1, count, pos =>
    if 0 < count ∧ pos < size then
      (List.range (min count (min (size - pos) (128 - pos % 128)))).map
          (fun j => blk ((slice_start + pos / 128) * 128 + pos % 128 + j)) ++
        sliceReadGo blk slice_start size fuel
          (count - min count (min (size - pos) (128 - pos % 128)))
          (pos + min count (min (size - pos) (128 - pos % 128)))
    else []

/-- `ouichefs_read` (slice-format small-file read): returns the bytes
copied to the caller and the advanced file position.  Model deviations from
the C code: buffer-head fetch and the copy to user space never fail. -/
def ouichefs_read (st : FsState) (ino : InodeInfo) (pos count : Nat) :
    List Nat × Nat :=
  if ino.i_size ≤ pos then ([], pos)
  else if ino.index_block = 0 then ([], pos)
  else
    let block_no := ino.index_block &&& ((1 <<< 27) - 1)
    let slice_start := ino.index_block >>> 27
    let out :=
      sliceReadGo ((st.disk block_no).bytes) slice_start ino.i_size
        count count pos
    (out, pos + out.length)

/-- The copy-out loop of `convert_slice_to_block`
(`while (copied < size)`), reconstructing the file's bytes from its slice
run.  Fuel `size` suffices: each iteration copies at least one byte. -/
def convertCopyGo (blk : Nat → Nat) (slice_no size : Nat) :
    Nat → Nat → List Nat
  | 0, _ => []
  | fuel + 1, copied =>
    if copied < size then
      let slice_index := slice_no + copied / 128
      let off := copied % 128
      let to_copy := min (128 - off) (size - copied)
      (List.range to_copy).map
          (fun j => blk (slice_index * 128 + off + j)) ++
        convertCopyGo blk slice_no size fuel (copied + to_copy)
    else []

/-- Modelled from the spec: `release_slice` is called by
`convert_slice_to_block` ("clear old slice allocation") but its definition
is not among the available sources.  Per spec §4.5 step 3 it releases the
file's slice run: the run's bits in the owning block's metadata bitmap are
made free again (bit set = free) and the run is returned to the volume's
free-slice count.  The file's own locator field is not touched (the caller
overwrites it only when promotion succeeds). -/
def release_slice (st : FsState) (ino : InodeInfo) : FsState :=
  let raw := ino.index_block
  let slice_no := raw >>> 27
  let slice_block := raw &&& ((1 <<< 27) - 1)
  let run_len := (ino.i_size + 128 - 1) / 128
  let bd := st.disk slice_block
  let bitmap := (bd.meta.slice_bitmap ||| sliceRunMask run_len slice_no) % U32
  { st with
    disk := updateDisk st.disk slice_block
      { bd with meta := { bd.meta with slice_bitmap := bitmap } },
    sbi := { st.sbi with
      total_free_slices := (st.sbi.total_free_slices + run_len) % U32 } }

/-- A fully zeroed block image (`memset(b_data, 0, OUICHEFS_BLOCK_SIZE)`),
zeroing every view of the block. -/
def zeroBlock : BlockData :=
  { meta := { slice_bitmap := 0, next_partial_block := 0 },
    bytes := fun _ => 0,
    index := fun _ => 0 }

/-- `convert_slice_to_block` from file.c: promote a slice-resident file to
indexed-block storage.  Returns the (possibly partially mutated) state, the
inode (mutated only on success) and the outcome.  Model deviations from the
C code: `sb_bread`/`sb_getblk` and `kmalloc` never fail (the `-EIO` and
`-ENOMEM` exits are unreachable in the model). -/
def convert_slice_to_block (st : FsState) (ino : InodeInfo) :
    FsState × InodeInfo × Except WErr Unit :=
  let raw := ino.index_block
  let slice_no := raw >>> 27
  let slice_block := raw &&& ((1 <<< 27) - 1)
  let size := ino.i_size
  let buffer := convertCopyGo ((st.disk slice_block).bytes) slice_no size size 0
  let st1 := release_slice st ino
  match ouichefs_alloc_block st1 with
  | (0, st2) => (st2, ino, Except.error WErr.ENOSPC)
  | (index_block, st2) =>
    let st3 := { st2 with
      disk := updateDisk st2.disk index_block zeroBlock }
    match ouichefs_alloc_block st3 with
    | (0, st4) => (put_block st4 index_block, ino, Except.error WErr.ENOSPC)
    | (data_block, st4) =>
      let bdI := st4.disk index_block
      let st5 := { st4 with
        disk := updateDisk st4.disk index_block
          { bdI with index := fun k => if k = 0 then data_block else bdI.index k } }
      let st6 := { st5 with
        disk := updateDisk st5.disk data_block
          { meta := { slice_bitmap := 0, next_partial_block := 0 },
            bytes := fun a => if a < size then buffer.getD a 0 else 0,
            index := fun _ => 0 } }
      (st6,
        { index_block := index_block, i_size := ino.i_size, i_blocks := 2 },
        Except.ok ())

/-- The tail of `ouichefs_write` after `slice_allocated:`: update the inode
with the packed locator, write the content into the run's slices (zero
filling each slice's tail), update the accounting counters and advance the
file position.  `found` records which allocation branch was taken, exactly
as the C flag does. -/
def finishWrite (found : Bool) (st : FsState) (ki_pos : Nat) (kbuf : List Nat)
    (old_size num_slices block_no slice_start : Nat) :
    FsState × InodeInfo × Nat × Except WErr Nat :=
  let count := kbuf.length
  let ino1 : InodeInfo :=
    { index_block := ((slice_start <<< 27) ||| block_no) % U32,
      i_size := count,
      i_blocks := 1 }
  let bd := st.disk block_no
  let st1 := { st with
    disk := updateDisk st.disk block_no
      { bd with
        bytes := writeSlicesLoop bd.bytes slice_start kbuf count num_slices } }
  let sbi0 := st1.sbi
  let sbi1 :=
    if old_size = 0 ∧ count ≤ 128 then
      { sbi0 with small_files := (sbi0.small_files + 1) % U32 }
    else sbi0
  let sbi2 :=
    if found then
      { sbi1 with
        total_free_slices :=
          (sbi1.total_free_slices + (U32 - num_slices)) % U32 }
    else
      { sbi1 with
        sliced_blocks := (sbi1.sliced_blocks + 1) % U32,
        total_used_size := (sbi1.total_used_size + OUICHEFS_BLOCK_SIZE) % U64,
        total_free_slices :=
          (sbi1.total_free_slices + (31 - num_slices)) % U32 }
  let sbi3 :=
    { sbi2 with
      total_data_size :=
        (sbi2.total_data_size + (count + (U64 - old_size % U64))) % U64 }
  let sbi4 :=
    if 0 < old_size ∧ old_size ≤ 128 ∧ 128 < count then
      { sbi3 with small_files := (sbi3.small_files + (U32 - 1)) % U32 }
    else sbi3
  let st2 := { st1 with sbi := sbi4 }
  let ki_pos2 := ki_pos + count
  let ino2 := { ino1 with i_size := max ino1.i_size ki_pos2 }
  (st2, ino2, ki_pos2, Except.ok count)

/-- The allocation half of `ouichefs_write` (everything from the
`num_slices > 31` check through the free-list search, the new-sliced-block
branch and the `slice_allocated:` tail): split out of `ouichefs_write` so
that the promotion stage and the slice stage can be reasoned about
separately.  Semantically this is exactly the remainder of the C function
after the conversion check. -/
def sliceAllocWrite (fuel : Nat) (st1 : FsState) (ino1 : InodeInfo)
    (ki_pos : Nat) (kbuf : List Nat) (old_size : Nat) :
    Option (FsState × InodeInfo × Nat × Except WErr Nat) :=
  let count := kbuf.length
  let num_slices := (count + 128 - 1) / 128
  if 31 < num_slices then
    some (st1, ino1, ki_pos, Except.error WErr.EFBIG)
  else
    match searchSliced st1.disk num_slices fuel
        st1.sbi.s_free_sliced_blocks with
    | none => none
    | some (some (block_no, slice_start, disk2)) =>
      some (finishWrite true { st1 with disk := disk2 } ki_pos kbuf
        old_size num_slices block_no slice_start)
    | some none =>
      match ouichefs_alloc_block st1 with
      | (0, st2) => some (st2, ino1, ki_pos, Except.error WErr.ENOSPC)
      | (block_no, st2) =>
        let bd := st2.disk block_no
        let st3 := { st2 with
          disk := updateDisk st2.disk block_no
            { meta := { slice_bitmap := clearRun (clearRun (U32 - 1) 1 0)
                          num_slices 1,
                        next_partial_block := st2.sbi.s_free_sliced_blocks },
              bytes := fun a => if a < 128 then 0 else bd.bytes a,
              index := bd.index },
          sbi := { st2.sbi with s_free_sliced_blocks := block_no } }
        some (finishWrite false st3 ki_pos kbuf old_size num_slices
          block_no 1)

/-- `ouichefs_write` from file.c (the 1.10 multi-slice revision): the whole
write path.  Returns `none` when the free-list walk's fuel runs out (the C
loop would still be walking), otherwise the post state, inode, file
position and outcome.  Model deviations from the C code: `kmalloc`,
`copy_from_iter` and buffer-head fetch never fail (`-ENOMEM`, `-EFAULT`
and `-EIO` exits unreachable), and the duplicated `block_no == 0` recheck
(`-EUCLEAN`) is dead code in C and omitted here. -/
def ouichefs_write (fuel : Nat) (st0 : FsState) (ino0 : InodeInfo)
    (ki_pos : Nat) (kbuf : List Nat) :
    Option (FsState × InodeInfo × Nat × Except WErr Nat) :=
  let count := kbuf.length
  let old_size := ino0.i_size
  if OUICHEFS_MAX_FILESIZE < count then
    some (st0, ino0, ki_pos, Except.error WErr.EFBIG)
  else
    match
      (if 128 < count ∧ ino0.i_size ≤ 128 ∧ ino0.index_block ≠ 0 then
        convert_slice_to_block st0 ino0
      else (st0, ino0, Except.ok ())) with
    | (st1, _, Except.error e) => some (st1, ino0, ki_pos, Except.error e)
    | (st1, ino1, Except.ok ()) =>
      sliceAllocWrite fuel st1 ino1 ki_pos kbuf old_size

/-! ### Bit-level helper lemmas -/

theorem BLOCK_MASK_eq : BLOCK_MASK = 2 ^ 27 - 1 := by decide

theorem SLICE_MASK_eq : SLICE_MASK = 2 ^ 5 - 1 := by decide

theorem testBit_sliceRunMask (ns i k : Nat) :
    (sliceRunMask ns i).testBit k = (decide (i ≤ k) && decide (k < i + ns)) := by
  have h1 : (1 : Nat) <<< ns = 2 ^ ns := by simp [Nat.shiftLeft_eq]
  rw [sliceRunMask, h1, Nat.testBit_shiftLeft, Nat.testBit_two_pow_sub_one]
  by_cases h : i ≤ k
  · have hge : (decide (k ≥ i)) = true := by simpa [ge_iff_le] using h
    rw [hge, Bool.true_and, Bool.true_and, decide_eq_decide]
    omega
  · have hge : (decide (k ≥ i)) = false := by simpa [ge_iff_le] using h
    rw [hge, Bool.false_and, Bool.false_and]

theorem testBit_clearRun (b ns i k : Nat) (hk : k < 32) :
    (clearRun b ns i).testBit k =
      (b.testBit k && !(decide (i ≤ k) && decide (k < i + ns))) := by
  have hu : U32 - 1 = 2 ^ 32 - 1 := rfl
  rw [clearRun, Nat.testBit_and, Nat.testBit_xor, hu,
    Nat.testBit_two_pow_sub_one, testBit_sliceRunMask]
  simp [hk]

theorem clearRun_lt (b ns i : Nat) (hb : b < U32) : clearRun b ns i < U32 :=
  lt_of_le_of_lt Nat.and_le_left hb

/-- A number below `2^27` has no bits at positions 27 and above. -/
theorem testBit_false_of_lt_27 {b : Nat} (hb : b < 2 ^ 27) {j : Nat}
    (hj : 27 ≤ j) : b.testBit j = false :=
  Nat.testBit_lt_two_pow
    (lt_of_lt_of_le hb (Nat.pow_le_pow_right (by norm_num) hj))

/-- Unpacking the block number out of a packed `(slice <<< 27) ||| block`
value: the low 27 bits are exactly the block number. -/
theorem lor_shift27_and_mask (s b : Nat) (hb : b < 2 ^ 27) :
    ((s <<< 27) ||| b) &&& ((1 <<< 27) - 1) = b := by
  have h1 : (1 : Nat) <<< 27 = 2 ^ 27 := by simp [Nat.shiftLeft_eq]
  rw [h1]
  apply Nat.eq_of_testBit_eq
  intro j
  rw [Nat.testBit_and, Nat.testBit_or, Nat.testBit_shiftLeft,
    Nat.testBit_two_pow_sub_one]
  by_cases hj : j < 27
  · have : (decide (j ≥ 27)) = false := by simp [ge_iff_le]; omega
    simp [this, hj]
  · have : b.testBit j = false := testBit_false_of_lt_27 hb (by omega)
    simp [this, hj]

/-- Unpacking the slice number out of a packed `(s <<< 27) ||| b` value. -/
theorem lor_shift27_shr (s b : Nat) (hb : b < 2 ^ 27) :
    ((s <<< 27) ||| b) >>> 27 = s := by
  apply Nat.eq_of_testBit_eq
  intro j
  rw [Nat.testBit_shiftRight, Nat.testBit_or, Nat.testBit_shiftLeft]
  have h1 : b.testBit (27 + j) = false := testBit_false_of_lt_27 hb (by omega)
  have h2 : (decide (27 + j ≥ 27)) = true := by simp
  rw [h1, h2, Bool.true_and, Bool.or_false, Nat.add_sub_cancel_left]

theorem lor_shift27_lt (s b : Nat) (hs : s < 32) (hb : b < 2 ^ 27) :
    (s <<< 27) ||| b < U32 := by
  show (s <<< 27) ||| b < 2 ^ 32
  apply Nat.or_lt_two_pow
  · rw [Nat.shiftLeft_eq]
    have h31 : s ≤ 31 := by omega
    calc s * 2 ^ 27 ≤ 31 * 2 ^ 27 := Nat.mul_le_mul_right _ h31
      _ < 2 ^ 32 := by norm_num
  · exact lt_of_lt_of_le hb (by norm_num)

theorem lor_shift27_ne_zero (s b : Nat) (hs : 1 ≤ s) :
    (s <<< 27) ||| b ≠ 0 := by
  intro h
  have hsz : s <<< 27 = 0 := by
    apply Nat.eq_of_testBit_eq
    intro j
    have hj : ((s <<< 27) ||| b).testBit j = false := by
      rw [h]; exact Nat.zero_testBit j
    rw [Nat.testBit_or] at hj
    simp only [Bool.or_eq_false_iff] at hj
    simp [hj.1, Nat.zero_testBit]
  rw [Nat.shiftLeft_eq] at hsz
  rcases Nat.mul_eq_zero.mp hsz with h0 | h0
  · omega
  · exact absurd h0 (by positivity)

/-! ### Claim C8 : the slice codec -/

/-- C8: for every block number representable in 27 bits and slice index
representable in 5 bits, `unpack (pack b s) = (b, s)`; and on any 32-bit
value the unpack functions compute `v &&& 0x07FFFFFF` and `v >>> 27`
with no failure mode. -/
theorem C8_codec_roundtrip (b s v : Nat) (hb : b < 2 ^ 27) (hs : s < 2 ^ 5)
    (hv : v < U32) :
    extract_block_num (pack_slice_ptr b s) = b ∧
    extract_slice_num (pack_slice_ptr b s) = s ∧
    extract_block_num v = v &&& 0x07FFFFFF ∧
    extract_slice_num v = v >>> 27 := by
  have hs32 : s &&& SLICE_MASK = s := by
    rw [SLICE_MASK_eq, Nat.and_pow_two_sub_one_of_lt_two_pow hs]
  have hbmask : b &&& BLOCK_MASK = b := by
    rw [BLOCK_MASK_eq, Nat.and_pow_two_sub_one_of_lt_two_pow hb]
  refine ⟨?_, ?_, rfl, ?_⟩
  · rw [extract_block_num, pack_slice_ptr, hs32, hbmask, BLOCK_MASK_eq]
    have := lor_shift27_and_mask s b hb
    rw [show ((1 : Nat) <<< 27) - 1 = 2 ^ 27 - 1 by decide] at this
    exact this
  · rw [extract_slice_num, pack_slice_ptr, hs32, hbmask,
      lor_shift27_shr s b hb, SLICE_MASK_eq,
      Nat.and_pow_two_sub_one_of_lt_two_pow hs]
  · rw [extract_slice_num, SLICE_MASK_eq]
    apply Nat.and_pow_two_sub_one_of_lt_two_pow
    rw [Nat.shiftRight_eq_div_pow]
    have : v < 2 ^ 27 * 2 ^ 5 := by
      calc v < U32 := hv
      _ = 2 ^ 27 * 2 ^ 5 := by norm_num [U32]
    exact Nat.div_lt_of_lt_mul this

/-! ### Specification of the first-fit scan and the free-list walk -/

/-- The C condition `(bitmap & (mask << i)) == (mask << i)`: the run
`[i, i+ns)` is entirely free in `bitmap`. -/
def runFree (bitmap ns i : Nat) : Prop :=
  bitmap &&& sliceRunMask ns i = sliceRunMask ns i

instance (bitmap ns i : Nat) : Decidable (runFree bitmap ns i) := by
  unfold runFree; infer_instance

theorem runFree_iff (bitmap ns i : Nat) :
    runFree bitmap ns i ↔
      ∀ k, i ≤ k → k < i + ns → bitmap.testBit k = true := by
  constructor
  · intro h k hk1 hk2
    have := congrArg (fun x => x.testBit k) h
    simp only [Nat.testBit_and, testBit_sliceRunMask] at this
    have hm : (decide (i ≤ k) && decide (k < i + ns)) = true := by
      simp [hk1, hk2]
    rw [hm, Bool.and_true] at this
    exact this
  · intro h
    apply Nat.eq_of_testBit_eq
    intro k
    rw [Nat.testBit_and, testBit_sliceRunMask]
    by_cases hk : i ≤ k ∧ k < i + ns
    · simp [hk.1, hk.2, h k hk.1 hk.2]
    · have : (decide (i ≤ k) && decide (k < i + ns)) = false := by
        rcases Decidable.not_and_iff_or_not.mp hk with h1 | h1 <;> simp [h1]
      simp [this]

theorem scanFromAux_some (bitmap ns : Nat) :
    ∀ steps i j, scanFromAux bitmap ns steps i = some j →
      i ≤ j ∧ j ≤ 32 - ns ∧ runFree bitmap ns j ∧
      ∀ m, i ≤ m → m < j → ¬ runFree bitmap ns m := by
  intro steps
  induction steps with
  | zero => intro i j h; simp [scanFromAux] at h
  | succ n ih =>
    intro i j h
    simp only [scanFromAux] at h
    by_cases hle : i ≤ 32 - ns
    · rw [if_pos hle] at h
      by_cases hfit : bitmap &&& sliceRunMask ns i = sliceRunMask ns i
      · rw [if_pos hfit] at h
        cases h
        exact ⟨le_refl _, hle, hfit, fun m h1 h2 => absurd h1 (by omega)⟩
      · rw [if_neg hfit] at h
        obtain ⟨h1, h2, h3, h4⟩ := ih (i + 1) j h
        refine ⟨by omega, h2, h3, ?_⟩
        intro m hm1 hm2
        rcases Nat.eq_or_lt_of_le hm1 with rfl | hlt
        · exact hfit
        · exact h4 m (by omega) hm2
    · rw [if_neg hle] at h; cases h

theorem scanFromAux_none (bitmap ns : Nat) (hns : ns ≤ 32) :
    ∀ steps i, scanFromAux bitmap ns steps i = none → 33 - ns ≤ steps + i →
      ∀ m, i ≤ m → m ≤ 32 - ns → ¬ runFree bitmap ns m := by
  intro steps
  induction steps with
  | zero =>
    intro i h hfuel m hm1 hm2
    exact absurd hm2 (by omega)
  | succ n ih =>
    intro i h hfuel m hm1 hm2
    simp only [scanFromAux] at h
    by_cases hle : i ≤ 32 - ns
    · rw [if_pos hle] at h
      by_cases hfit : bitmap &&& sliceRunMask ns i = sliceRunMask ns i
      · rw [if_pos hfit] at h; cases h
      · rw [if_neg hfit] at h
        rcases Nat.eq_or_lt_of_le hm1 with rfl | hlt
        · exact hfit
        · exact ih (i + 1) h (by omega) m (by omega) hm2
    · omega

theorem scanBitmap_some (bitmap ns j : Nat)
    (h : scanBitmap bitmap ns = some j) :
    1 ≤ j ∧ j ≤ 32 - ns ∧ runFree bitmap ns j ∧
      ∀ m, 1 ≤ m → m < j → ¬ runFree bitmap ns m :=
  scanFromAux_some bitmap ns 32 1 j h

theorem scanBitmap_none (bitmap ns : Nat) (hns : ns ≤ 32)
    (h : scanBitmap bitmap ns = none) :
    ∀ m, 1 ≤ m → m ≤ 32 - ns → ¬ runFree bitmap ns m :=
  scanFromAux_none bitmap ns hns 32 1 h (by omega)

/-- `chainTo disk visited curr b`: starting the walk at `curr` and following
`next_partial_block` links past exactly the blocks of `visited` (all
nonzero) arrives at `b`. -/
def chainTo (disk : Nat → BlockData) : List Nat → Nat → Nat → Prop
  | [], curr, b => curr = b
  | v :: vs, curr, b =>
    curr = v ∧ v ≠ 0 ∧ chainTo disk vs ((disk v).meta.next_partial_block) b

theorem chainTo_bound (disk : Nat → BlockData)
    (hnext : ∀ c, (disk c).meta.next_partial_block < 2 ^ 27) :
    ∀ visited curr b, chainTo disk visited curr b → curr < 2 ^ 27 →
      b < 2 ^ 27 := by
  intro visited
  induction visited with
  | nil => intro curr b h hc; rw [show curr = b from h] at hc; exact hc
  | cons v vs ih =>
    intro curr b h hc
    exact ih _ b h.2.2 (hnext v)

theorem searchSliced_found (disk : Nat → BlockData) (ns : Nat) :
    ∀ fuel curr b i disk2,
      searchSliced disk ns fuel curr = some (some (b, i, disk2)) →
      b ≠ 0 ∧ scanBitmap ((disk b).meta.slice_bitmap) ns = some i ∧
      disk2 = updateDisk disk b
        { disk b with meta := { (disk b).meta with
            slice_bitmap := clearRun ((disk b).meta.slice_bitmap) ns i } } ∧
      ∃ visited, chainTo disk visited curr b ∧
        ∀ v ∈ visited, scanBitmap ((disk v).meta.slice_bitmap) ns = none := by
  intro fuel
  induction fuel with
  | zero =>
    intro curr b i disk2 h
    cases curr with
    | zero => simp [searchSliced] at h
    | succ c => simp [searchSliced] at h
  | succ n ih =>
    intro curr b i disk2 h
    cases curr with
    | zero => simp [searchSliced] at h
    | succ c =>
      cases hscan : scanBitmap ((disk (c + 1)).meta.slice_bitmap) ns with
      | some i0 =>
        simp only [searchSliced, hscan, Option.some.injEq, Prod.mk.injEq] at h
        obtain ⟨hb, hi, hd⟩ := h
        subst hb; subst hi
        exact ⟨Nat.succ_ne_zero c, hscan, hd.symm, [], rfl, by simp⟩
      | none =>
        simp only [searchSliced, hscan] at h
        obtain ⟨h1, h2, h3, visited, h4, h5⟩ := ih _ b i disk2 h
        refine ⟨h1, h2, h3, (c + 1) :: visited, ⟨rfl, Nat.succ_ne_zero c, h4⟩, ?_⟩
        intro v hv
        rcases List.mem_cons.mp hv with rfl | hv2
        · exact hscan
        · exact h5 v hv2

theorem searchSliced_found_bound (disk : Nat → BlockData) (ns : Nat)
    (fuel curr b i : Nat) (disk2 : Nat → BlockData)
    (h : searchSliced disk ns fuel curr = some (some (b, i, disk2)))
    (hc : curr < 2 ^ 27)
    (hnext : ∀ c, (disk c).meta.next_partial_block < 2 ^ 27) :
    b < 2 ^ 27 := by
  obtain ⟨_, _, _, visited, h4, _⟩ := searchSliced_found disk ns fuel curr b i disk2 h
  exact chainTo_bound disk hnext visited curr b h4 hc

/-- Witness for C8 at a concrete block number, slice index and raw value. -/
theorem C8_codec_roundtrip_witness :
    extract_block_num (pack_slice_ptr 123 7) = 123 ∧
    extract_slice_num (pack_slice_ptr 123 7) = 7 ∧
    extract_block_num 0x89ABCDEF = 0x89ABCDEF &&& 0x07FFFFFF ∧
    extract_slice_num 0x89ABCDEF = 0x89ABCDEF >>> 27 :=
  C8_codec_roundtrip 123 7 0x89ABCDEF (by norm_num) (by norm_num)
    (by norm_num [U32])

/-! ### Specification of the slice write and read loops -/

theorem writeSlicesGo_apply (ss : Nat) (kbuf : List Nat) (count : Nat) :
    ∀ rem s blk a,
      writeSlicesGo ss kbuf count rem s (min count (128 * s)) blk a =
        if (ss + s) * 128 ≤ a ∧ a < (ss + s + rem) * 128 then
          if a - ss * 128 < count then kbuf.getD (a - ss * 128) 0 else 0
        else blk a := by
  intro rem
  induction rem with
  | zero =>
    intro s blk a
    rw [writeSlicesGo, if_neg]
    omega
  | succ n ih =>
    intro s blk a
    rw [writeSlicesGo]
    have harg : min count (128 * s) + min 128 (count - min count (128 * s)) =
        min count (128 * (s + 1)) := by omega
    rw [harg, ih (s + 1)]
    by_cases hmid : (ss + (s + 1)) * 128 ≤ a ∧ a < (ss + (s + 1) + n) * 128
    · have hbig : (ss + s) * 128 ≤ a ∧ a < (ss + s + (n + 1)) * 128 := by omega
      rw [if_pos hmid, if_pos hbig]
    · rw [if_neg hmid, memcpySlice]
      by_cases hin : (ss + s) * 128 ≤ a ∧ a < (ss + s) * 128 + 128
      · have hbig : (ss + s) * 128 ≤ a ∧ a < (ss + s + (n + 1)) * 128 := by omega
        rw [if_pos hin, if_pos hbig]
        by_cases hcopy : a - (ss + s) * 128 < min 128 (count - min count (128 * s))
        · have hidx : min count (128 * s) + (a - (ss + s) * 128) =
              a - ss * 128 := by omega
          have hcnt : a - ss * 128 < count := by omega
          rw [if_pos hcopy, hidx, if_pos hcnt]
        · have hcnt : ¬ (a - ss * 128 < count) := by omega
          rw [if_neg hcopy, if_neg hcnt]
      · have hbig : ¬ ((ss + s) * 128 ≤ a ∧ a < (ss + s + (n + 1)) * 128) := by
          omega
        rw [if_neg hin, if_neg hbig]

theorem writeSlicesLoop_run (blk : Nat → Nat) (ss : Nat) (kbuf : List Nat)
    (num_slices : Nat) (j : Nat) (hj : j < 128 * num_slices) :
    writeSlicesLoop blk ss kbuf kbuf.length num_slices (ss * 128 + j) =
      if j < kbuf.length then kbuf.getD j 0 else 0 := by
  have h := writeSlicesGo_apply ss kbuf kbuf.length num_slices 0 blk
    (ss * 128 + j)
  rw [show min kbuf.length (128 * 0) = 0 by simp] at h
  rw [writeSlicesLoop, h, if_pos (by constructor <;> omega)]
  have : ss * 128 + j - ss * 128 = j := by omega
  rw [this]

theorem writeSlicesLoop_out (blk : Nat → Nat) (ss : Nat) (kbuf : List Nat)
    (num_slices : Nat) (a : Nat)
    (ha : a < ss * 128 ∨ (ss + num_slices) * 128 ≤ a) :
    writeSlicesLoop blk ss kbuf kbuf.length num_slices a = blk a := by
  have h := writeSlicesGo_apply ss kbuf kbuf.length num_slices 0 blk a
  rw [show min kbuf.length (128 * 0) = 0 by simp] at h
  rw [writeSlicesLoop, h, if_neg (by omega)]

theorem sliceReadGo_eq (blk : Nat → Nat) (ss size : Nat) :
    ∀ fuel count pos, count ≤ fuel →
      sliceReadGo blk ss size fuel count pos =
        (List.range (min count (size - pos))).map
          (fun j => blk (ss * 128 + pos + j)) := by
  intro fuel
  induction fuel with
  | zero =>
    intro count pos h
    have : count = 0 := by omega
    subst this
    simp [sliceReadGo]
  | succ n ih =>
    intro count pos h
    rw [sliceReadGo]
    by_cases hc : 0 < count ∧ pos < size
    · rw [if_pos hc]
      have hmod : pos % 128 < 128 := Nat.mod_lt pos (by norm_num)
      have ht1 : 1 ≤ min count (min (size - pos) (128 - pos % 128)) := by omega
      rw [ih (count - min count (min (size - pos) (128 - pos % 128)))
        (pos + min count (min (size - pos) (128 - pos % 128))) (by omega)]
      have hsplit : min count (size - pos) =
          min count (min (size - pos) (128 - pos % 128)) +
          min (count - min count (min (size - pos) (128 - pos % 128)))
            (size - (pos + min count (min (size - pos) (128 - pos % 128)))) := by
        omega
      rw [hsplit, List.range_add, List.map_append, List.map_map]
      congr 1
      · apply List.map_congr_left
        intro j _
        have : (ss + pos / 128) * 128 + pos % 128 + j = ss * 128 + pos + j := by
          omega
        rw [this]
      · apply List.map_congr_left
        intro j _
        show blk (ss * 128 + (pos + min count (min (size - pos) (128 - pos % 128))) + j) = _
        have : ss * 128 + (pos + min count (min (size - pos) (128 - pos % 128))) + j =
            ss * 128 + pos + (min count (min (size - pos) (128 - pos % 128)) + j) := by
          omega
        rw [this]
        rfl
    · rw [if_neg hc]
      have : min count (size - pos) = 0 := by omega
      rw [this]
      rfl

theorem take_eq_range_getD (l : List Nat) (n : Nat) :
    l.take n = (List.range (min n l.length)).map (fun j => l.getD j 0) := by
  apply List.ext_getElem
  · simp
  · intro i h1 h2
    simp only [List.getElem_take, List.getElem_map, List.getElem_range]
    rw [List.getD_eq_getElem?_getD, List.getElem?_eq_getElem, Option.getD_some]

/-! ### Well-formed states and preservation through the promotion stage -/

/-- Basic well-formedness of a filesystem state: every block number the
volume can hand out or reach through the free-sliced-block list is nonzero
(for the pool) and representable in the locator's 27 block bits. -/
def FsWF (st : FsState) : Prop :=
  (∀ b ∈ st.freeBlocks, 0 < b ∧ b < 2 ^ 27) ∧
  st.sbi.s_free_sliced_blocks < 2 ^ 27 ∧
  ∀ c, ((st.disk c).meta.next_partial_block) < 2 ^ 27

theorem FsWF_release (st : FsState) (ino : InodeInfo) (h : FsWF st) :
    FsWF (release_slice st ino) := by
  obtain ⟨h1, h2, h3⟩ := h
  refine ⟨h1, h2, ?_⟩
  intro c
  simp only [release_slice, updateDisk]
  split
  · exact h3 _
  · exact h3 _

theorem quad_eq_fields {α β γ δ : Type} {x : α × β × γ × δ} {a : α} {b : β}
    {c : γ} {d : δ} (h : x = (a, b, c, d)) :
    x.1 = a ∧ x.2.1 = b ∧ x.2.2.1 = c ∧ x.2.2.2 = d := by
  subst h; exact ⟨rfl, rfl, rfl, rfl⟩

theorem convert_WF (st : FsState) (ino : InodeInfo) (hWF : FsWF st) :
    FsWF (convert_slice_to_block st ino).1 := by
  have hrel : FsWF (release_slice st ino) := FsWF_release st ino hWF
  simp only [convert_slice_to_block]
  rcases hfb : (release_slice st ino).freeBlocks with _ | ⟨nb, rest⟩
  · simp only [ouichefs_alloc_block, hfb]
    exact hrel
  · obtain ⟨w1, w2, w3⟩ := hrel
    have hrest : ∀ b ∈ rest, 0 < b ∧ b < 2 ^ 27 := fun b hb =>
      w1 b (by rw [hfb]; exact List.mem_cons_of_mem _ hb)
    have hnb : 0 < nb ∧ nb < 2 ^ 27 :=
      w1 nb (by rw [hfb]; exact List.mem_cons_self _ _)
    simp only [ouichefs_alloc_block, hfb]
    rcases nb with _ | n
    · exact ⟨hrest, w2, w3⟩
    · have hz : ∀ c, ((updateDisk ((release_slice st ino).disk) (n + 1)
          zeroBlock c).meta.next_partial_block) < 2 ^ 27 := by
        intro c
        simp only [updateDisk]
        split
        · norm_num [zeroBlock]
        · exact w3 c
      rcases rest with _ | ⟨db, rest2⟩
      · simp only [ouichefs_alloc_block]
        refine ⟨?_, w2, hz⟩
        intro b hb
        rcases List.mem_cons.mp hb with rfl | hb2
        · exact hnb
        · cases hb2
      · have hrest2 : ∀ b ∈ rest2, 0 < b ∧ b < 2 ^ 27 := fun b hb =>
          hrest b (List.mem_cons_of_mem _ hb)
        simp only [ouichefs_alloc_block]
        rcases db with _ | m
        · refine ⟨?_, w2, hz⟩
          intro b hb
          rcases List.mem_cons.mp hb with rfl | hb2
          · exact hnb
          · exact hrest2 b hb2
        · refine ⟨hrest2, w2, ?_⟩
          intro c
          simp only [updateDisk]
          split
          · norm_num
          · split
            · split
              · norm_num [zeroBlock]
              · exact w3 _
            · exact w3 c

/-! ### Field lemmas for the tail of the write path -/

theorem finishWrite_ret (found : Bool) (st : FsState) (ki_pos : Nat)
    (kbuf : List Nat) (old_size ns b s : Nat) :
    (finishWrite found st ki_pos kbuf old_size ns b s).2.2.2 =
      Except.ok kbuf.length := rfl

theorem finishWrite_pos (found : Bool) (st : FsState) (ki_pos : Nat)
    (kbuf : List Nat) (old_size ns b s : Nat) :
    (finishWrite found st ki_pos kbuf old_size ns b s).2.2.1 =
      ki_pos + kbuf.length := rfl

theorem finishWrite_ino (found : Bool) (st : FsState) (ki_pos : Nat)
    (kbuf : List Nat) (old_size ns b s : Nat) :
    (finishWrite found st ki_pos kbuf old_size ns b s).2.1 =
      { index_block := ((s <<< 27) ||| b) % U32,
        i_size := max kbuf.length (ki_pos + kbuf.length),
        i_blocks := 1 } := rfl

theorem finishWrite_disk (found : Bool) (st : FsState) (ki_pos : Nat)
    (kbuf : List Nat) (old_size ns b s : Nat) :
    (finishWrite found st ki_pos kbuf old_size ns b s).1.disk =
      updateDisk st.disk b
        { st.disk b with
          bytes := writeSlicesLoop ((st.disk b).bytes) s kbuf
            kbuf.length ns } := rfl

theorem finishWrite_freeBlocks (found : Bool) (st : FsState) (ki_pos : Nat)
    (kbuf : List Nat) (old_size ns b s : Nat) :
    (finishWrite found st ki_pos kbuf old_size ns b s).1.freeBlocks =
      st.freeBlocks := rfl

/-! ### The write path success specification -/

theorem runFree_zero (bitmap i : Nat) : runFree bitmap 0 i := by
  simp [runFree, sliceRunMask]

/-- What a successful run of the allocation half of the write path
guarantees: a nonzero block `b` below `2^27` and a slice offset
`1 ≤ s ≤ 31` with the whole run inside the block were chosen, the returned
byte count is the full request, the file position advanced by it, the inode
was set to the packed locator with `i_size = max count (pos + count)`, the
chosen block's bytes are the result of the slice write loop, and the run's
bitmap bits are marked used. -/
theorem allocWrite_ok_spec (fuel : Nat) (st1 : FsState) (ino1 : InodeInfo)
    (ki_pos : Nat) (kbuf : List Nat) (old_size : Nat) (stF : FsState)
    (inoF : InodeInfo) (posF ret : Nat) (hWF1 : FsWF st1)
    (hw : sliceAllocWrite fuel st1 ino1 ki_pos kbuf old_size =
      some (stF, inoF, posF, Except.ok ret)) :
    ∃ b s blk0,
      0 < b ∧ b < 2 ^ 27 ∧ 1 ≤ s ∧ s ≤ 31 ∧
      s + (kbuf.length + 128 - 1) / 128 ≤ 32 ∧
      ret = kbuf.length ∧ posF = ki_pos + kbuf.length ∧
      inoF = { index_block := (s <<< 27) ||| b,
               i_size := max kbuf.length (ki_pos + kbuf.length),
               i_blocks := 1 } ∧
      (stF.disk b).bytes =
        writeSlicesLoop blk0 s kbuf kbuf.length
          ((kbuf.length + 128 - 1) / 128) ∧
      ∀ k, s ≤ k → k < s + (kbuf.length + 128 - 1) / 128 →
        ((stF.disk b).meta.slice_bitmap).testBit k = false := by
  simp only [sliceAllocWrite] at hw
  by_cases hns : 31 < (kbuf.length + 128 - 1) / 128
  · rw [if_pos hns] at hw
    simp at hw
  · rw [if_neg hns] at hw
    cases hsrch : searchSliced st1.disk ((kbuf.length + 128 - 1) / 128) fuel
        st1.sbi.s_free_sliced_blocks with
    | none => rw [hsrch] at hw; simp at hw
    | some o =>
      cases o with
      | some triple =>
        obtain ⟨b, i, disk2⟩ := triple
        simp only [hsrch] at hw
        obtain ⟨hb0, hscan, hdeq, -⟩ :=
          searchSliced_found st1.disk _ fuel _ b i disk2 hsrch
        obtain ⟨hi1, hi2, hfree, hmin⟩ := scanBitmap_some _ _ _ hscan
        have hble : b < 2 ^ 27 :=
          searchSliced_found_bound st1.disk _ fuel _ b i disk2 hsrch
            hWF1.2.1 hWF1.2.2
        have hs31 : i ≤ 31 := by
          rcases Nat.eq_zero_or_pos ((kbuf.length + 128 - 1) / 128) with h0 | h0
          · by_contra hgt
            have h1le : (1 : Nat) ≤ 1 := le_refl 1
            have := hmin 1 h1le (by omega)
            rw [h0] at this
            exact this (runFree_zero _ 1)
          · omega
        have hsum : i + (kbuf.length + 128 - 1) / 128 ≤ 32 := by omega
        obtain ⟨hst, hino, hpos, hret⟩ := quad_eq_fields (Option.some.inj hw)
        have hms : i <<< 27 ||| b < U32 := lor_shift27_lt i b (by omega) hble
        refine ⟨b, i, ((st1.disk b).bytes), Nat.pos_of_ne_zero hb0, hble, hi1,
          hs31, hsum, ?_, ?_, ?_, ?_, ?_⟩
        · rw [finishWrite_ret] at hret
          exact (Except.ok.inj hret).symm
        · rw [finishWrite_pos] at hpos
          exact hpos.symm
        · rw [finishWrite_ino] at hino
          rw [← hino, Nat.mod_eq_of_lt hms]
        · rw [← hst, finishWrite_disk]
          simp [updateDisk, hdeq]
        · intro k hk1 hk2
          rw [← hst, finishWrite_disk]
          simp only [hdeq]
          simp [updateDisk]
          rw [testBit_clearRun _ _ _ _ (by omega)]
          have hA : (decide (i ≤ k)) = true := by
            simp only [decide_eq_true_eq]; omega
          have hB : (decide (k < i + (kbuf.length + 127) / 128)) = true := by
            simp only [decide_eq_true_eq]; omega
          rw [hA, hB]
          simp
      | none =>
        simp only [hsrch] at hw
        rcases hfb : st1.freeBlocks with _ | ⟨nb, rest⟩
        · simp only [ouichefs_alloc_block, hfb] at hw
          simp at hw
        · simp only [ouichefs_alloc_block, hfb] at hw
          rcases nb with _ | n
          · simp at hw
          · have hnb := hWF1.1 (n + 1)
              (by rw [hfb]; exact List.mem_cons_self _ _)
            obtain ⟨hst, hino, hpos, hret⟩ := quad_eq_fields (Option.some.inj hw)
            have hms : (1 : Nat) <<< 27 ||| (n + 1) < U32 :=
              lor_shift27_lt 1 (n + 1) (by omega) hnb.2
            refine ⟨n + 1, 1,
              (fun a => if a < 128 then 0 else ((st1.disk (n + 1)).bytes) a),
              hnb.1, hnb.2, le_refl 1, by omega, by omega, ?_, ?_, ?_, ?_, ?_⟩
            · rw [finishWrite_ret] at hret
              exact (Except.ok.inj hret).symm
            · rw [finishWrite_pos] at hpos
              exact hpos.symm
            · rw [finishWrite_ino] at hino
              rw [← hino, Nat.mod_eq_of_lt hms]
            · rw [← hst, finishWrite_disk]
              simp [updateDisk]
            · intro k hk1 hk2
              rw [← hst, finishWrite_disk]
              simp [updateDisk]
              rw [testBit_clearRun _ _ _ _ (by omega)]
              have hA : (decide (1 ≤ k)) = true := by
                simp only [decide_eq_true_eq]; omega
              have hB : (decide (k < 1 + (kbuf.length + 127) / 128)) = true := by
                simp only [decide_eq_true_eq]; omega
              rw [hA, hB]
              simp

/-- Master specification of a successful `ouichefs_write`: whichever path
the write took (with or without slice-to-block conversion first), it ends
in the slice-allocation tail, whose guarantees are those of
`allocWrite_ok_spec`. -/
theorem write_ok_spec (fuel : Nat) (st : FsState) (ino : InodeInfo)
    (ki_pos : Nat) (kbuf : List Nat) (stF : FsState) (inoF : InodeInfo)
    (posF ret : Nat) (hWF : FsWF st)
    (hw : ouichefs_write fuel st ino ki_pos kbuf =
      some (stF, inoF, posF, Except.ok ret)) :
    ∃ b s blk0,
      0 < b ∧ b < 2 ^ 27 ∧ 1 ≤ s ∧ s ≤ 31 ∧
      s + (kbuf.length + 128 - 1) / 128 ≤ 32 ∧
      ret = kbuf.length ∧ posF = ki_pos + kbuf.length ∧
      inoF = { index_block := (s <<< 27) ||| b,
               i_size := max kbuf.length (ki_pos + kbuf.length),
               i_blocks := 1 } ∧
      (stF.disk b).bytes =
        writeSlicesLoop blk0 s kbuf kbuf.length
          ((kbuf.length + 128 - 1) / 128) ∧
      ∀ k, s ≤ k → k < s + (kbuf.length + 128 - 1) / 128 →
        ((stF.disk b).meta.slice_bitmap).testBit k = false := by
  simp only [ouichefs_write] at hw
  by_cases hmax : OUICHEFS_MAX_FILESIZE < kbuf.length
  · rw [if_pos hmax] at hw; simp at hw
  · rw [if_neg hmax] at hw
    by_cases hcv : 128 < kbuf.length ∧ ino.i_size ≤ 128 ∧ ino.index_block ≠ 0
    · rw [if_pos hcv] at hw
      rcases hcveq : convert_slice_to_block st ino with ⟨st1, inoc, rc⟩
      rw [hcveq] at hw
      have hWF1 : FsWF st1 := by
        have hcw := convert_WF st ino hWF
        rw [hcveq] at hcw
        exact hcw
      rcases rc with e | u
      · simp at hw
      · cases u
        exact allocWrite_ok_spec fuel st1 inoc ki_pos kbuf ino.i_size stF inoF
          posF ret hWF1 hw
    · rw [if_neg hcv] at hw
      exact allocWrite_ok_spec fuel st ino ki_pos kbuf ino.i_size stF inoF
        posF ret hWF hw

/-! ### Concrete demonstration states used by the witnesses -/

/-- An empty, freshly formatted volume: zeroed disk, empty free-sliced-block
list, one data block (number 5) available from the external allocator. -/
def demoSt : FsState :=
  { sbi := { s_free_sliced_blocks := 0, sliced_blocks := 0,
             total_free_slices := 0, small_files := 0,
             total_data_size := 0, total_used_size := 0 },
    disk := fun _ => zeroBlock,
    freeBlocks := [5] }

/-- A fresh file: no locator, zero length. -/
def demoIno : InodeInfo := { index_block := 0, i_size := 0, i_blocks := 1 }

def demoKbuf : List Nat := [10, 20, 30]

def demoW : Option (FsState × InodeInfo × Nat × Except WErr Nat) :=
  ouichefs_write 1 demoSt demoIno 0 demoKbuf

def demoWst : FsState :=
  match demoW with | some (s, _, _, _) => s | none => demoSt

def demoWino : InodeInfo :=
  match demoW with | some (_, i, _, _) => i | none => demoIno

def demoWpos : Nat :=
  match demoW with | some (_, _, p, _) => p | none => 0

def demoWret : Nat :=
  match demoW with | some (_, _, _, Except.ok r) => r | _ => 0

theorem demoW_eq : ouichefs_write 1 demoSt demoIno 0 demoKbuf =
    some (demoWst, demoWino, demoWpos, Except.ok demoWret) := rfl

theorem demoSt_WF : FsWF demoSt := by
  refine ⟨by decide, by norm_num [demoSt], ?_⟩
  intro c
  norm_num [demoSt, zeroBlock]

/-! ### Claim C10 : a successful slice write stores at the run start and
returns the full count -/

/-- C10: every successful write on the slice path stores the new content
starting at the first byte of the allocated run (byte `slice_start * 128`
of the block) and returns the full requested byte count, regardless of the
current file position; the file's size is then set to the maximum of the
written count and the advanced file position. -/
theorem C10_write_at_run_start (fuel : Nat) (st : FsState) (ino : InodeInfo)
    (ki_pos : Nat) (kbuf : List Nat) (stF : FsState) (inoF : InodeInfo)
    (posF ret : Nat) (hWF : FsWF st)
    (hw : ouichefs_write fuel st ino ki_pos kbuf =
      some (stF, inoF, posF, Except.ok ret)) :
    ret = kbuf.length ∧ posF = ki_pos + kbuf.length ∧
    inoF.i_size = max kbuf.length (ki_pos + kbuf.length) ∧
    ∃ b s, b < 2 ^ 27 ∧ 1 ≤ s ∧ s ≤ 31 ∧
      inoF.index_block = (s <<< 27) ||| b ∧
      ∀ j, j < kbuf.length →
        (stF.disk b).bytes (s * 128 + j) = kbuf.getD j 0 := by
  obtain ⟨b, s, blk0, hb0, hble, hs1, hs31, hsum, hret, hpos, hino, hbytes, -⟩ :=
    write_ok_spec fuel st ino ki_pos kbuf stF inoF posF ret hWF hw
  subst hino
  refine ⟨hret, hpos, rfl, b, s, hble, hs1, hs31, rfl, ?_⟩
  intro j hj
  rw [hbytes]
  have hrun := writeSlicesLoop_run blk0 s kbuf ((kbuf.length + 128 - 1) / 128)
    j (by omega)
  rw [hrun, if_pos hj]

/-- Witness for C10: the demo write of 3 bytes to a fresh file on the demo
volume. -/
theorem C10_write_at_run_start_witness :
    demoWret = demoKbuf.length ∧ demoWpos = 0 + demoKbuf.length ∧
    demoWino.i_size = max demoKbuf.length (0 + demoKbuf.length) ∧
    ∃ b s, b < 2 ^ 27 ∧ 1 ≤ s ∧ s ≤ 31 ∧
      demoWino.index_block = (s <<< 27) ||| b ∧
      ∀ j, j < demoKbuf.length →
        (demoWst.disk b).bytes (s * 128 + j) = demoKbuf.getD j 0 :=
  C10_write_at_run_start 1 demoSt demoIno 0 demoKbuf demoWst demoWino
    demoWpos demoWret demoSt_WF demoW_eq

/-! ### Claim C1 : write then read roundtrip for a fresh small file -/

/-- C1: writing content of length `L` (`0 < L ≤ 128`) to a fresh file and
reading back `[0, L)` returns exactly the written bytes; every read bounded
by the file's length returns a prefix of the written content and never
bytes beyond `L`; and the unused tail bytes of the slice run are
zero-filled, so stale bytes of a previous occupant are never exposed. -/
theorem C1_write_read_roundtrip (fuel : Nat) (st : FsState)
    (kbuf : List Nat) (stF : FsState) (inoF : InodeInfo) (posF ret : Nat)
    (hWF : FsWF st) (hlen0 : 0 < kbuf.length) (hlen : kbuf.length ≤ 128)
    (hw : ouichefs_write fuel st { index_block := 0, i_size := 0, i_blocks := 1 }
        0 kbuf = some (stF, inoF, posF, Except.ok ret)) :
    (ouichefs_read stF inoF 0 kbuf.length).1 = kbuf ∧
    (∀ n, (ouichefs_read stF inoF 0 n).1 = kbuf.take n) ∧
    ∀ j, kbuf.length ≤ j → j < 128 →
      (stF.disk (inoF.index_block &&& ((1 <<< 27) - 1))).bytes
        ((inoF.index_block >>> 27) * 128 + j) = 0 := by
  obtain ⟨b, s, blk0, hb0, hble, hs1, hs31, hsum, hret, hpos, hino, hbytes, -⟩ :=
    write_ok_spec fuel st _ 0 kbuf stF inoF posF ret hWF hw
  subst hino
  have hns1 : (kbuf.length + 128 - 1) / 128 = 1 := by omega
  rw [hns1] at hbytes
  have hmask : ((s <<< 27) ||| b) &&& ((1 <<< 27) - 1) = b :=
    lor_shift27_and_mask s b hble
  have hshr : ((s <<< 27) ||| b) >>> 27 = s := lor_shift27_shr s b hble
  have hnz : (s <<< 27) ||| b ≠ 0 := lor_shift27_ne_zero s b hs1
  have hsize : max kbuf.length (0 + kbuf.length) = kbuf.length := by omega
  have hread : ∀ n, (ouichefs_read stF
      { index_block := (s <<< 27) ||| b,
        i_size := max kbuf.length (0 + kbuf.length), i_blocks := 1 } 0 n).1 =
      kbuf.take n := by
    intro n
    rw [ouichefs_read]
    rw [if_neg (by simp only []; omega)]
    rw [if_neg (by simp only []; exact hnz)]
    simp only [hmask, hshr, hbytes, hsize]
    rw [sliceReadGo_eq _ _ _ n n 0 (le_refl n)]
    rw [take_eq_range_getD]
    have hlen2 : kbuf.length - 0 = kbuf.length := by omega
    rw [hlen2]
    apply List.map_congr_left
    intro j hj
    have hjlt : j < min n kbuf.length := List.mem_range.mp hj
    have hrun := writeSlicesLoop_run blk0 s kbuf 1 j (by omega)
    have haddr : s * 128 + 0 + j = s * 128 + j := by omega
    rw [haddr, hrun, if_pos (by omega)]
  refine ⟨?_, hread, ?_⟩
  · rw [hread kbuf.length, List.take_length]
  · intro j hj1 hj2
    simp only [hmask, hshr, hbytes]
    have hrun := writeSlicesLoop_run blk0 s kbuf 1 j (by omega)
    rw [hrun, if_neg (by omega)]

/-- Witness for C1: the demo write of `[10, 20, 30]` on the demo volume. -/
theorem C1_write_read_roundtrip_witness :
    (ouichefs_read demoWst demoWino 0 demoKbuf.length).1 = demoKbuf ∧
    (∀ n, (ouichefs_read demoWst demoWino 0 n).1 = demoKbuf.take n) ∧
    ∀ j, demoKbuf.length ≤ j → j < 128 →
      (demoWst.disk (demoWino.index_block &&& ((1 <<< 27) - 1))).bytes
        ((demoWino.index_block >>> 27) * 128 + j) = 0 :=
  C1_write_read_roundtrip 1 demoSt demoKbuf demoWst demoWino demoWpos
    demoWret demoSt_WF (by decide) (by decide) demoW_eq

/-! ### Claim C4 : first-fit, lowest-offset allocation from the free list -/

theorem not_runFree_witness (bitmap ns j : Nat) (h : ¬ runFree bitmap ns j) :
    ∃ k, j ≤ k ∧ k < j + ns ∧ bitmap.testBit k = false := by
  by_contra hno
  push_neg at hno
  apply h
  rw [runFree_iff]
  intro k h1 h2
  cases hb : bitmap.testBit k
  · exact absurd hb (hno k h1 h2)
  · rfl

/-- C4: an allocation of `run_length` slices (`1 ≤ run_length ≤ 31`)
satisfied from an existing listed block picks, within the first block of
the walk (started at the list head) that can satisfy it, the lowest
starting offset `i` whose run `[i, i+run_length)` is entirely free
(first-fit, lowest offset wins), and clears exactly those bits of that
block's bitmap. -/
theorem C4_first_fit_lowest_offset (disk : Nat → BlockData)
    (ns fuel head b i : Nat) (disk2 : Nat → BlockData)
    (hns1 : 1 ≤ ns) (hns31 : ns ≤ 31)
    (h : searchSliced disk ns fuel head = some (some (b, i, disk2))) :
    (1 ≤ i ∧ i + ns ≤ 32) ∧
    (∀ k, i ≤ k → k < i + ns →
      ((disk b).meta.slice_bitmap).testBit k = true) ∧
    (∀ j, 1 ≤ j → j + ns ≤ 32 → j < i →
      ∃ k, j ≤ k ∧ k < j + ns ∧
        ((disk b).meta.slice_bitmap).testBit k = false) ∧
    (∃ visited, chainTo disk visited head b ∧
      ∀ v ∈ visited, ∀ j, 1 ≤ j → j + ns ≤ 32 →
        ∃ k, j ≤ k ∧ k < j + ns ∧
          ((disk v).meta.slice_bitmap).testBit k = false) ∧
    (disk2 b).meta.next_partial_block = (disk b).meta.next_partial_block ∧
    (∀ k, k < 32 → ((disk2 b).meta.slice_bitmap).testBit k =
      (((disk b).meta.slice_bitmap).testBit k &&
        !(decide (i ≤ k) && decide (k < i + ns)))) ∧
    ∀ c, c ≠ b → disk2 c = disk c := by
  obtain ⟨hb0, hscan, hdeq, visited, hchain, hvisited⟩ :=
    searchSliced_found disk ns fuel head b i disk2 h
  obtain ⟨hi1, hi2, hfree, hmin⟩ := scanBitmap_some _ _ _ hscan
  refine ⟨⟨hi1, by omega⟩, (runFree_iff _ _ _).mp hfree, ?_, ?_, ?_, ?_, ?_⟩
  · intro j hj1 hj2 hj3
    exact not_runFree_witness _ _ _ (hmin j hj1 hj3)
  · refine ⟨visited, hchain, ?_⟩
    intro v hv j hj1 hj2
    exact not_runFree_witness _ _ _
      (scanBitmap_none _ _ (by omega) (hvisited v hv) j hj1 (by omega))
  · rw [hdeq]
    simp [updateDisk]
  · intro k hk
    rw [hdeq]
    simp only [updateDisk, if_pos rfl]
    exact testBit_clearRun _ _ _ _ hk
  · intro c hc
    rw [hdeq]
    simp [updateDisk, hc]

/-- A two-entry demo volume for the search: block 2 heads the free list and
has slices 0..2 used, 3..31 free. -/
def demoDisk4 : Nat → BlockData := fun c =>
  if c = 2 then
    { meta := { slice_bitmap := 0xFFFFFFF8, next_partial_block := 0 },
      bytes := fun _ => 0, index := fun _ => 0 }
  else zeroBlock

def demoS4 : Option (Option (Nat × Nat × (Nat → BlockData))) :=
  searchSliced demoDisk4 2 1 2

def demoS4disk : Nat → BlockData :=
  match demoS4 with | some (some (_, _, d)) => d | _ => demoDisk4

theorem demoS4_eq : searchSliced demoDisk4 2 1 2 =
    some (some (2, 3, demoS4disk)) := rfl

/-- Witness for C4: allocating a 2-slice run from the demo block finds
offset 3 (the lowest with both bits free). -/
theorem C4_first_fit_lowest_offset_witness :
    (1 ≤ 3 ∧ 3 + 2 ≤ 32) ∧
    (∀ k, 3 ≤ k → k < 3 + 2 →
      ((demoDisk4 2).meta.slice_bitmap).testBit k = true) ∧
    (∀ j, 1 ≤ j → j + 2 ≤ 32 → j < 3 →
      ∃ k, j ≤ k ∧ k < j + 2 ∧
        ((demoDisk4 2).meta.slice_bitmap).testBit k = false) ∧
    (∃ visited, chainTo demoDisk4 visited 2 2 ∧
      ∀ v ∈ visited, ∀ j, 1 ≤ j → j + 2 ≤ 32 →
        ∃ k, j ≤ k ∧ k < j + 2 ∧
          ((demoDisk4 v).meta.slice_bitmap).testBit k = false) ∧
    (demoS4disk 2).meta.next_partial_block =
      (demoDisk4 2).meta.next_partial_block ∧
    (∀ k, k < 32 → ((demoS4disk 2).meta.slice_bitmap).testBit k =
      (((demoDisk4 2).meta.slice_bitmap).testBit k &&
        !(decide (3 ≤ k) && decide (k < 3 + 2)))) ∧
    ∀ c, c ≠ 2 → demoS4disk c = demoDisk4 c :=
  C4_first_fit_lowest_offset demoDisk4 2 1 2 2 3 demoS4disk (by decide)
    (by decide) demoS4_eq

/-! ### Accounting lemmas for the tail of the write path -/

theorem finishWrite_head (found : Bool) (st : FsState) (ki_pos : Nat)
    (kbuf : List Nat) (old_size ns b s : Nat) :
    (finishWrite found st ki_pos kbuf old_size ns b s).1.sbi.s_free_sliced_blocks =
      st.sbi.s_free_sliced_blocks := by
  by_cases h1 : old_size = 0 ∧ kbuf.length ≤ 128 <;>
    by_cases h2 : 0 < old_size ∧ old_size ≤ 128 ∧ 128 < kbuf.length <;>
    cases found <;> simp [finishWrite, h1, h2]

theorem finishWrite_sliced_blocks (st : FsState) (ki_pos : Nat)
    (kbuf : List Nat) (old_size ns b s : Nat) :
    (finishWrite false st ki_pos kbuf old_size ns b s).1.sbi.sliced_blocks =
      (st.sbi.sliced_blocks + 1) % U32 := by
  by_cases h1 : old_size = 0 ∧ kbuf.length ≤ 128 <;>
    by_cases h2 : 0 < old_size ∧ old_size ≤ 128 ∧ 128 < kbuf.length <;>
    simp [finishWrite, h1, h2]

theorem finishWrite_total_free (st : FsState) (ki_pos : Nat)
    (kbuf : List Nat) (old_size ns b s : Nat) :
    (finishWrite false st ki_pos kbuf old_size ns b s).1.sbi.total_free_slices =
      (st.sbi.total_free_slices + (31 - ns)) % U32 := by
  by_cases h1 : old_size = 0 ∧ kbuf.length ≤ 128 <;>
    by_cases h2 : 0 < old_size ∧ old_size ≤ 128 ∧ 128 < kbuf.length <;>
    simp [finishWrite, h1, h2]

/-! ### Claim C7 : initialization and LIFO push of a new sliced block -/

/-- The core of C7 on the allocation half of the write path: when the walk
found no fit and the external allocator hands out block `nb`, the new
block's bitmap has exactly bits `{0} ∪ [1, 1+run_length)` used and all
other bits (below 32) free, its next-pointer is the previous list head,
the head becomes `nb` (LIFO push), the sliced-block counter grows by one,
the free-slice counter grows by `31 - run_length`, and the file's locator
packs `(nb, 1)`. -/
theorem allocWrite_new_block_spec (fuel : Nat) (st1 : FsState)
    (ino1 : InodeInfo) (ki_pos : Nat) (kbuf : List Nat) (old_size : Nat)
    (stF : FsState) (inoF : InodeInfo) (posF ret nb : Nat) (rest : List Nat)
    (hWF1 : FsWF st1)
    (hsearch : searchSliced st1.disk ((kbuf.length + 128 - 1) / 128) fuel
      st1.sbi.s_free_sliced_blocks = some none)
    (hfree : st1.freeBlocks = nb :: rest) (hnb : nb ≠ 0)
    (hcap1 : st1.sbi.sliced_blocks + 1 < U32)
    (hcap2 : st1.sbi.total_free_slices + 31 < U32)
    (hw : sliceAllocWrite fuel st1 ino1 ki_pos kbuf old_size =
      some (stF, inoF, posF, Except.ok ret)) :
    (∀ k, k < 32 → ((stF.disk nb).meta.slice_bitmap).testBit k =
      !(decide (k = 0) ||
        (decide (1 ≤ k) && decide (k < 1 + (kbuf.length + 128 - 1) / 128)))) ∧
    (stF.disk nb).meta.next_partial_block = st1.sbi.s_free_sliced_blocks ∧
    stF.sbi.s_free_sliced_blocks = nb ∧
    stF.sbi.sliced_blocks = st1.sbi.sliced_blocks + 1 ∧
    stF.sbi.total_free_slices =
      st1.sbi.total_free_slices + (31 - (kbuf.length + 128 - 1) / 128) ∧
    inoF.index_block >>> 27 = 1 ∧
    inoF.index_block &&& ((1 <<< 27) - 1) = nb := by
  have hnb2 := hWF1.1 nb (by rw [hfree]; exact List.mem_cons_self _ _)
  simp only [sliceAllocWrite] at hw
  by_cases hns : 31 < (kbuf.length + 128 - 1) / 128
  · rw [if_pos hns] at hw
    simp at hw
  · rw [if_neg hns] at hw
    simp only [hsearch] at hw
    simp only [ouichefs_alloc_block, hfree] at hw
    rcases nb with _ | n
    · exact absurd rfl hnb
    · obtain ⟨hst, hino, hpos, hret⟩ := quad_eq_fields (Option.some.inj hw)
      have hms : (1 : Nat) <<< 27 ||| (n + 1) < U32 :=
        lor_shift27_lt 1 (n + 1) (by omega) hnb2.2
      have hinoF : inoF.index_block = (1 <<< 27) ||| (n + 1) := by
        rw [finishWrite_ino] at hino
        rw [← hino, Nat.mod_eq_of_lt hms]
      refine ⟨?_, ?_, ?_, ?_, ?_, ?_, ?_⟩
      · intro k hk
        rw [← hst, finishWrite_disk]
        simp [updateDisk]
        rw [testBit_clearRun _ _ _ _ hk, testBit_clearRun _ _ _ _ hk]
        rw [show U32 - 1 = 2 ^ 32 - 1 from rfl, Nat.testBit_two_pow_sub_one]
        by_cases hk0 : k = 0
        · subst hk0
          simp
        · by_cases hk1 : k < 1 + (kbuf.length + 128 - 1) / 128
          · have h1k : (1 : Nat) ≤ k := by omega
            simp [hk, hk0, hk1, h1k, Nat.lt_one_iff]
          · simp [hk, hk0, hk1, Nat.lt_one_iff, Nat.one_le_iff_ne_zero]
      · rw [← hst, finishWrite_disk]
        simp [updateDisk]
      · rw [← hst, finishWrite_head]
      · rw [← hst, finishWrite_sliced_blocks]
        exact Nat.mod_eq_of_lt hcap1
      · rw [← hst, finishWrite_total_free]
        show (st1.sbi.total_free_slices +
            (31 - (kbuf.length + 128 - 1) / 128)) % U32 =
          st1.sbi.total_free_slices + (31 - (kbuf.length + 128 - 1) / 128)
        exact Nat.mod_eq_of_lt (by omega)
      · rw [hinoF]
        exact lor_shift27_shr 1 (n + 1) hnb2.2
      · rw [hinoF]
        exact lor_shift27_and_mask 1 (n + 1) hnb2.2

/-- C7: whenever no listed block can satisfy the request and a new block is
obtained, the whole write initializes it with exactly bits
`{0} ∪ [1, 1+run_length)` used, links it to the previous head, pushes it as
the new head (LIFO), bumps the sliced-block counter by 1 and the
free-slice counter by `31 - run_length`, and returns `(new_block, 1)` in
the locator. -/
theorem C7_new_block_init (fuel : Nat) (st : FsState) (ino : InodeInfo)
    (ki_pos : Nat) (kbuf : List Nat) (stF : FsState) (inoF : InodeInfo)
    (posF ret nb : Nat) (rest : List Nat) (hWF : FsWF st)
    (hnc : ¬(128 < kbuf.length ∧ ino.i_size ≤ 128 ∧ ino.index_block ≠ 0))
    (hsearch : searchSliced st.disk ((kbuf.length + 128 - 1) / 128) fuel
      st.sbi.s_free_sliced_blocks = some none)
    (hfree : st.freeBlocks = nb :: rest) (hnb : nb ≠ 0)
    (hcap1 : st.sbi.sliced_blocks + 1 < U32)
    (hcap2 : st.sbi.total_free_slices + 31 < U32)
    (hmax : kbuf.length ≤ OUICHEFS_MAX_FILESIZE)
    (hw : ouichefs_write fuel st ino ki_pos kbuf =
      some (stF, inoF, posF, Except.ok ret)) :
    (∀ k, k < 32 → ((stF.disk nb).meta.slice_bitmap).testBit k =
      !(decide (k = 0) ||
        (decide (1 ≤ k) && decide (k < 1 + (kbuf.length + 128 - 1) / 128)))) ∧
    (stF.disk nb).meta.next_partial_block = st.sbi.s_free_sliced_blocks ∧
    stF.sbi.s_free_sliced_blocks = nb ∧
    stF.sbi.sliced_blocks = st.sbi.sliced_blocks + 1 ∧
    stF.sbi.total_free_slices =
      st.sbi.total_free_slices + (31 - (kbuf.length + 128 - 1) / 128) ∧
    inoF.index_block >>> 27 = 1 ∧
    inoF.index_block &&& ((1 <<< 27) - 1) = nb := by
  simp only [ouichefs_write] at hw
  rw [if_neg (by omega)] at hw
  rw [if_neg hnc] at hw
  have hw2 : sliceAllocWrite fuel st ino ki_pos kbuf ino.i_size =
      some (stF, inoF, posF, Except.ok ret) := hw
  exact allocWrite_new_block_spec fuel st ino ki_pos kbuf ino.i_size stF inoF
    posF ret nb rest hWF hsearch hfree hnb hcap1 hcap2 hw2

/-- Witness for C7: the demo write allocates new sliced block 5 on the
empty volume. -/
theorem C7_new_block_init_witness :
    (∀ k, k < 32 → ((demoWst.disk 5).meta.slice_bitmap).testBit k =
      !(decide (k = 0) ||
        (decide (1 ≤ k) && decide (k < 1 + (demoKbuf.length + 128 - 1) / 128)))) ∧
    (demoWst.disk 5).meta.next_partial_block =
      demoSt.sbi.s_free_sliced_blocks ∧
    demoWst.sbi.s_free_sliced_blocks = 5 ∧
    demoWst.sbi.sliced_blocks = demoSt.sbi.sliced_blocks + 1 ∧
    demoWst.sbi.total_free_slices =
      demoSt.sbi.total_free_slices + (31 - (demoKbuf.length + 128 - 1) / 128) ∧
    demoWino.index_block >>> 27 = 1 ∧
    demoWino.index_block &&& ((1 <<< 27) - 1) = 5 :=
  C7_new_block_init 1 demoSt demoIno 0 demoKbuf demoWst demoWino demoWpos
    demoWret 5 [] demoSt_WF (by decide) rfl rfl (by decide)
    (by decide) (by decide) (by decide) demoW_eq

/-! ### Claim C9 : slice 0 is permanently reserved -/

/-- The claimed invariant: bit 0 of every block's slice bitmap reads
"not free". -/
def BitZeroUsed (st : FsState) : Prop :=
  ∀ c, ((st.disk c).meta.slice_bitmap).testBit 0 = false

theorem U32_eq : U32 = 2 ^ 32 := rfl

theorem updateDisk_meta_testBit (d : Nat → BlockData) (b : Nat)
    (v : BlockData) (c : Nat)
    (hv : (v.meta.slice_bitmap).testBit 0 = false)
    (hd : ((d c).meta.slice_bitmap).testBit 0 = false) :
    (((updateDisk d b v) c).meta.slice_bitmap).testBit 0 = false := by
  simp only [updateDisk]
  split
  · exact hv
  · exact hd

theorem BitZeroUsed_release (st : FsState) (ino : InodeInfo)
    (hs : 1 ≤ ino.index_block >>> 27) (h : BitZeroUsed st) :
    BitZeroUsed (release_slice st ino) := by
  intro c
  simp only [release_slice, updateDisk]
  split
  · rw [U32_eq, Nat.testBit_mod_two_pow, Nat.testBit_or, testBit_sliceRunMask]
    have h0 : (decide (ino.index_block >>> 27 ≤ 0)) = false := by
      simp only [decide_eq_false_iff_not]
      omega
    rw [h0, h (ino.index_block &&& ((1 <<< 27) - 1))]
    simp
  · exact h c

theorem BitZeroUsed_convert (st : FsState) (ino : InodeInfo)
    (hs : 1 ≤ ino.index_block >>> 27) (h : BitZeroUsed st) :
    BitZeroUsed (convert_slice_to_block st ino).1 := by
  have hrel : BitZeroUsed (release_slice st ino) :=
    BitZeroUsed_release st ino hs h
  simp only [convert_slice_to_block]
  rcases hfb : (release_slice st ino).freeBlocks with _ | ⟨nb, rest⟩
  · simp only [ouichefs_alloc_block, hfb]
    exact hrel
  · simp only [ouichefs_alloc_block, hfb]
    rcases nb with _ | n
    · exact hrel
    · have hz : BitZeroUsed { release_slice st ino with
          freeBlocks := rest,
          disk := updateDisk ((release_slice st ino).disk) (n + 1) zeroBlock } := by
        intro c
        simp only [updateDisk]
        split
        · simp [zeroBlock]
        · exact hrel c
      rcases rest with _ | ⟨db, rest2⟩
      · simp only [ouichefs_alloc_block]
        intro c
        exact hz c
      · simp only [ouichefs_alloc_block]
        rcases db with _ | m
        · intro c
          exact hz c
        · intro c
          apply updateDisk_meta_testBit
          · simp
          · apply updateDisk_meta_testBit
            · show ((updateDisk ((release_slice st ino).disk) (n + 1)
                  zeroBlock (n + 1)).meta.slice_bitmap).testBit 0 = false
              apply updateDisk_meta_testBit
              · simp [zeroBlock]
              · exact hrel (n + 1)
            · apply updateDisk_meta_testBit
              · simp [zeroBlock]
              · exact hrel c

theorem BitZeroUsed_allocWrite (fuel : Nat) (st1 : FsState)
    (ino1 : InodeInfo) (ki_pos : Nat) (kbuf : List Nat) (old_size : Nat)
    (stF : FsState) (inoF : InodeInfo) (posF : Nat) (res : Except WErr Nat)
    (h : BitZeroUsed st1)
    (hw : sliceAllocWrite fuel st1 ino1 ki_pos kbuf old_size =
      some (stF, inoF, posF, res)) :
    BitZeroUsed stF := by
  simp only [sliceAllocWrite] at hw
  by_cases hns : 31 < (kbuf.length + 128 - 1) / 128
  · rw [if_pos hns] at hw
    obtain ⟨hst, -, -, -⟩ := quad_eq_fields (Option.some.inj hw)
    rw [← hst]
    exact h
  · rw [if_neg hns] at hw
    cases hsrch : searchSliced st1.disk ((kbuf.length + 128 - 1) / 128) fuel
        st1.sbi.s_free_sliced_blocks with
    | none => rw [hsrch] at hw; simp at hw
    | some o =>
      cases o with
      | some triple =>
        obtain ⟨b, i, disk2⟩ := triple
        simp only [hsrch] at hw
        obtain ⟨-, -, hdeq, -⟩ :=
          searchSliced_found st1.disk _ fuel _ b i disk2 hsrch
        obtain ⟨hst, -, -, -⟩ := quad_eq_fields (Option.some.inj hw)
        rw [← hst]
        have hd2 : ∀ c, ((disk2 c).meta.slice_bitmap).testBit 0 = false := by
          intro c
          rw [hdeq]
          apply updateDisk_meta_testBit
          · show (clearRun ((st1.disk b).meta.slice_bitmap)
                ((kbuf.length + 128 - 1) / 128) i).testBit 0 = false
            rw [testBit_clearRun _ _ _ _ (by omega), h b]
            simp
          · exact h c
        intro c
        rw [finishWrite_disk]
        apply updateDisk_meta_testBit
        · show ((disk2 b).meta.slice_bitmap).testBit 0 = false
          exact hd2 b
        · show ((disk2 c).meta.slice_bitmap).testBit 0 = false
          exact hd2 c
      | none =>
        simp only [hsrch] at hw
        rcases hfb : st1.freeBlocks with _ | ⟨nb, rest⟩
        · simp only [ouichefs_alloc_block, hfb] at hw
          obtain ⟨hst, -, -, -⟩ := quad_eq_fields (Option.some.inj hw)
          rw [← hst]
          exact h
        · simp only [ouichefs_alloc_block, hfb] at hw
          rcases nb with _ | n
          · obtain ⟨hst, -, -, -⟩ := quad_eq_fields (Option.some.inj hw)
            rw [← hst]
            intro c
            exact h c
          · obtain ⟨hst, -, -, -⟩ := quad_eq_fields (Option.some.inj hw)
            rw [← hst]
            have hini : (clearRun (clearRun (U32 - 1) 1 0)
                ((kbuf.length + 128 - 1) / 128) 1).testBit 0 = false := by
              rw [testBit_clearRun _ _ _ _ (by norm_num),
                testBit_clearRun _ _ _ _ (by norm_num)]
              simp
            intro c
            rw [finishWrite_disk]
            apply updateDisk_meta_testBit
            · apply updateDisk_meta_testBit
              · exact hini
              · exact h (n + 1)
            · apply updateDisk_meta_testBit
              · exact hini
              · exact h c

/-- C9: bit 0 of every sliced block's bitmap is always "not free": the
initialization marks it used, and no allocation or write path ever frees
it or assigns slice 0 to file data (a successful write always leaves a
locator with slice index at least 1). -/
theorem C9_slice_zero_reserved (fuel : Nat) (st : FsState) (ino : InodeInfo)
    (ki_pos : Nat) (kbuf : List Nat) (stF : FsState) (inoF : InodeInfo)
    (posF : Nat) (res : Except WErr Nat) (hWF : FsWF st)
    (hloc : ino.index_block ≠ 0 → 1 ≤ ino.index_block >>> 27)
    (hInv : BitZeroUsed st)
    (hw : ouichefs_write fuel st ino ki_pos kbuf =
      some (stF, inoF, posF, res)) :
    BitZeroUsed stF ∧
    ∀ r, res = Except.ok r → 1 ≤ inoF.index_block >>> 27 := by
  constructor
  · simp only [ouichefs_write] at hw
    by_cases hmax : OUICHEFS_MAX_FILESIZE < kbuf.length
    · rw [if_pos hmax] at hw
      obtain ⟨hst, -, -, -⟩ := quad_eq_fields (Option.some.inj hw)
      rw [← hst]
      exact hInv
    · rw [if_neg hmax] at hw
      by_cases hcv : 128 < kbuf.length ∧ ino.i_size ≤ 128 ∧ ino.index_block ≠ 0
      · rw [if_pos hcv] at hw
        rcases hcveq : convert_slice_to_block st ino with ⟨st1, inoc, rc⟩
        rw [hcveq] at hw
        have hInv1 : BitZeroUsed st1 := by
          have hbc := BitZeroUsed_convert st ino (hloc hcv.2.2) hInv
          rw [hcveq] at hbc
          exact hbc
        rcases rc with e | u
        · obtain ⟨hst, -, -, -⟩ := quad_eq_fields (Option.some.inj hw)
          rw [← hst]
          exact hInv1
        · cases u
          exact BitZeroUsed_allocWrite fuel st1 inoc ki_pos kbuf ino.i_size
            stF inoF posF res hInv1 hw
      · rw [if_neg hcv] at hw
        exact BitZeroUsed_allocWrite fuel st ino ki_pos kbuf ino.i_size
          stF inoF posF res hInv hw
  · intro r hres
    rw [hres] at hw
    obtain ⟨b, s, blk0, hb0, hble, hs1, -, -, -, -, hino, -, -⟩ :=
      write_ok_spec fuel st ino ki_pos kbuf stF inoF posF r hWF hw
    rw [hino]
    show 1 ≤ ((s <<< 27) ||| b) >>> 27
    rw [lor_shift27_shr s b hble]
    exact hs1

/-- Witness for C9 on the demo write: the invariant holds afterwards and
the assigned slice index is 1. -/
theorem C9_slice_zero_reserved_witness :
    BitZeroUsed demoWst ∧
    ∀ r, (Except.ok demoWret : Except WErr Nat) = Except.ok r →
      1 ≤ demoWino.index_block >>> 27 :=
  C9_slice_zero_reserved 1 demoSt demoIno 0 demoKbuf demoWst demoWino
    demoWpos (Except.ok demoWret) demoSt_WF (by decide)
    (by intro c; simp [demoSt, zeroBlock]) demoW_eq

/-! ### Claim C3 : promotion is not all-or-nothing -/

/-- A volume with one sliced block (number 2, slice 1 used by a 33-byte
file, bitmap `0xFFFFFFFC`) and an exhausted external allocator. -/
def demoSt3 : FsState :=
  { sbi := { s_free_sliced_blocks := 2, sliced_blocks := 1,
             total_free_slices := 30, small_files := 1,
             total_data_size := 33, total_used_size := 4096 },
    disk := fun c =>
      if c = 2 then
        { meta := { slice_bitmap := 0xFFFFFFFC, next_partial_block := 0 },
          bytes := fun a => if 128 ≤ a ∧ a < 161 then 7 else 0,
          index := fun _ => 0 }
      else zeroBlock,
    freeBlocks := [] }

/-- The 33-byte slice-resident file at (block 2, slice 1). -/
def demoIno3 : InodeInfo :=
  { index_block := (1 <<< 27) ||| 2, i_size := 33, i_blocks := 1 }

/-- Counterexample to C3 as stated: with the allocator exhausted, promotion
fails with the no-space error, but the owning block's bitmap has already
been mutated (the file's slice run was released before the allocations
were attempted), so the prior slice state is not left intact. -/
theorem C3_promotion_cex :
    (convert_slice_to_block demoSt3 demoIno3).2.2 =
      Except.error WErr.ENOSPC ∧
    ((convert_slice_to_block demoSt3 demoIno3).1.disk 2).meta.slice_bitmap =
      0xFFFFFFFE ∧
    (demoSt3.disk 2).meta.slice_bitmap = 0xFFFFFFFC := by decide

/-- The run released by `release_slice` is free in the released state's
bitmap: bit `k` of the owning block's map is set for every slice of the
run (within the 32-bit map). -/
theorem release_slice_run_free (st : FsState) (ino : InodeInfo) (k : Nat)
    (hk : k < 32) (h1 : ino.index_block >>> 27 ≤ k)
    (h2 : k < ino.index_block >>> 27 + (ino.i_size + 128 - 1) / 128) :
    (((release_slice st ino).disk
        (ino.index_block &&& ((1 <<< 27) - 1))).meta.slice_bitmap).testBit k
      = true := by
  simp only [release_slice, updateDisk]
  rw [if_pos trivial]
  show ((((st.disk (ino.index_block &&& ((1 <<< 27) - 1))).meta.slice_bitmap |||
      sliceRunMask ((ino.i_size + 128 - 1) / 128) (ino.index_block >>> 27)) %
        U32).testBit k) = true
  rw [show U32 = 2 ^ 32 from rfl, Nat.testBit_mod_two_pow, Nat.testBit_or,
    testBit_sliceRunMask]
  have hA : (decide (k < 32)) = true := by
    simp only [decide_eq_true_eq]; omega
  have hB : (decide (ino.index_block >>> 27 ≤ k)) = true := by
    simp only [decide_eq_true_eq]; omega
  have hC : (decide (k < ino.index_block >>> 27 +
      (ino.i_size + 128 - 1) / 128)) = true := by
    simp only [decide_eq_true_eq]; omega
  rw [hA, hB, hC]
  simp

/-- C3 (amended): with at most one free block left, promotion fails with
the no-space error whichever allocation gives out (no block left: the
index-block allocation fails; one block left: the index-block allocation
succeeds and the data-block allocation fails), and the inode — locator
and byte length — is returned unchanged; but the file's slice run has
already been released and the release is not rolled back: the owning
block's metadata is exactly the released state's, the run's bitmap bits
are free in the final state, and the volume's free-slice counter has been
credited with the run's length. -/
theorem C3_promotion_no_rollback (st : FsState) (ino : InodeInfo)
    (hpool : st.freeBlocks.length ≤ 1)
    (hnb : (ino.index_block &&& ((1 <<< 27) - 1)) ∉ st.freeBlocks) :
    ∃ st',
      convert_slice_to_block st ino = (st', ino, Except.error WErr.ENOSPC) ∧
      (st'.disk (ino.index_block &&& ((1 <<< 27) - 1))).meta =
        ((release_slice st ino).disk
          (ino.index_block &&& ((1 <<< 27) - 1))).meta ∧
      (∀ k, k < 32 → ino.index_block >>> 27 ≤ k →
        k < ino.index_block >>> 27 + (ino.i_size + 128 - 1) / 128 →
        ((st'.disk
            (ino.index_block &&& ((1 <<< 27) - 1))).meta.slice_bitmap).testBit
          k = true) ∧
      st'.sbi.total_free_slices =
        (st.sbi.total_free_slices + (ino.i_size + 128 - 1) / 128) % U32 := by
  have hfb0 : (release_slice st ino).freeBlocks = st.freeBlocks := rfl
  simp only [convert_slice_to_block]
  rcases hfb : (release_slice st ino).freeBlocks with _ | ⟨nb, rest⟩
  · simp only [ouichefs_alloc_block, hfb]
    exact ⟨release_slice st ino, rfl, rfl,
      fun k hk h1 h2 => release_slice_run_free st ino k hk h1 h2, rfl⟩
  · have hsfb : st.freeBlocks = nb :: rest := by rw [← hfb0, hfb]
    have hrest : rest = [] := by
      rw [hsfb] at hpool
      simp only [List.length_cons] at hpool
      exact List.eq_nil_of_length_eq_zero (by omega)
    subst hrest
    have hmem : nb ∈ st.freeBlocks := by
      rw [hsfb]; exact List.mem_cons_self _ _
    have hne : (ino.index_block &&& ((1 <<< 27) - 1)) ≠ nb := by
      intro h; exact hnb (by rw [h]; exact hmem)
    rcases nb with _ | n
    · simp only [ouichefs_alloc_block, hfb]
      exact ⟨{ release_slice st ino with freeBlocks := [] }, rfl, rfl,
        fun k hk h1 h2 => release_slice_run_free st ino k hk h1 h2, rfl⟩
    · simp only [ouichefs_alloc_block, hfb]
      refine ⟨_, rfl, ?_, ?_, rfl⟩
      · show (updateDisk (release_slice st ino).disk (n + 1) zeroBlock
            (ino.index_block &&& ((1 <<< 27) - 1))).meta =
          ((release_slice st ino).disk
            (ino.index_block &&& ((1 <<< 27) - 1))).meta
        simp only [updateDisk]
        rw [if_neg hne]
      · intro k hk h1 h2
        show ((updateDisk (release_slice st ino).disk (n + 1) zeroBlock
            (ino.index_block &&& ((1 <<< 27) - 1))).meta.slice_bitmap).testBit
          k = true
        simp only [updateDisk]
        rw [if_neg hne]
        exact release_slice_run_free st ino k hk h1 h2

/-- The volume of `demoSt3` with exactly one externally free block
(number 7): promotion's index-block allocation succeeds and its
data-block allocation fails. -/
def demoSt3b : FsState := { demoSt3 with freeBlocks := [7] }

/-- Witness for the amended C3 at the one-block volume, exercising the
data-block allocation failure. -/
theorem C3_promotion_no_rollback_witness :
    ∃ st',
      convert_slice_to_block demoSt3b demoIno3 =
        (st', demoIno3, Except.error WErr.ENOSPC) ∧
      (st'.disk (demoIno3.index_block &&& ((1 <<< 27) - 1))).meta =
        ((release_slice demoSt3b demoIno3).disk
          (demoIno3.index_block &&& ((1 <<< 27) - 1))).meta ∧
      (∀ k, k < 32 → demoIno3.index_block >>> 27 ≤ k →
        k < demoIno3.index_block >>> 27 +
          (demoIno3.i_size + 128 - 1) / 128 →
        ((st'.disk
            (demoIno3.index_block &&& ((1 <<< 27) - 1))).meta.slice_bitmap).testBit
          k = true) ∧
      st'.sbi.total_free_slices =
        (demoSt3b.sbi.total_free_slices +
          (demoIno3.i_size + 128 - 1) / 128) % U32 :=
  C3_promotion_no_rollback demoSt3b demoIno3 (by decide) (by decide)

/-! ### Claim C5 : an existing run is not reused in place -/

/-- A volume whose sliced block 2 has only slice 1 used — by the file
below, whose 10 bytes fit its existing 1-slice run. -/
def demoSt5 : FsState :=
  { sbi := { s_free_sliced_blocks := 2, sliced_blocks := 1,
             total_free_slices := 30, small_files := 1,
             total_data_size := 10, total_used_size := 4096 },
    disk := fun c =>
      if c = 2 then
        { meta := { slice_bitmap := 0xFFFFFFFC, next_partial_block := 0 },
          bytes := fun _ => 0, index := fun _ => 0 }
      else zeroBlock,
    freeBlocks := [9] }

/-- The 10-byte slice-resident file at (block 2, slice 1). -/
def demoIno5 : InodeInfo :=
  { index_block := (1 <<< 27) ||| 2, i_size := 10, i_blocks := 1 }

def demoKbuf5 : List Nat := [1, 2, 3, 4, 5, 6, 7, 8, 9, 10]

/-- Counterexample to C5 as stated: rewriting the 10-byte file with 10
bytes (which fits its existing run at slice 1) does not reuse the run:
the first-fit search allocates a fresh run at slice 2 of the same block,
the locator changes from `(2, slice 1)` to `(2, slice 2)`, and the bitmap
loses another slice (`0xFFFFFFFC → 0xFFFFFFF8`, the old run never
freed). -/
theorem C5_reuse_cex :
    (ouichefs_write 2 demoSt5 demoIno5 0 demoKbuf5).map
      (fun r => (r.2.1.index_block, decide (r.2.2.2 = Except.ok 10),
                 (r.1.disk 2).meta.slice_bitmap)) =
      some ((2 <<< 27) ||| 2, true, 0xFFFFFFF8) ∧
    ((2 : Nat) <<< 27) ||| 2 ≠ (1 <<< 27) ||| 2 := by decide

/-- A successful outcome of the slice-allocation half of the write path
is independent of the inode argument: the path reads the inode only on
its error returns, never on the success path. -/
theorem sliceAllocWrite_ok_ino (fuel : Nat) (st1 : FsState)
    (ino1 ino2 : InodeInfo) (ki_pos : Nat) (kbuf : List Nat)
    (old_size : Nat) (stF : FsState) (inoF : InodeInfo) (posF ret : Nat)
    (hw : sliceAllocWrite fuel st1 ino1 ki_pos kbuf old_size =
      some (stF, inoF, posF, Except.ok ret)) :
    sliceAllocWrite fuel st1 ino2 ki_pos kbuf old_size =
      some (stF, inoF, posF, Except.ok ret) := by
  simp only [sliceAllocWrite] at hw ⊢
  by_cases hns : 31 < (kbuf.length + 128 - 1) / 128
  · rw [if_pos hns] at hw
    simp at hw
  · rw [if_neg hns] at hw ⊢
    cases hsrch : searchSliced st1.disk ((kbuf.length + 128 - 1) / 128) fuel
        st1.sbi.s_free_sliced_blocks with
    | none => rw [hsrch] at hw; simp at hw
    | some o =>
      cases o with
      | some triple =>
        obtain ⟨b, i, disk2⟩ := triple
        simp only [hsrch] at hw ⊢
        exact hw
      | none =>
        simp only [hsrch] at hw ⊢
        rcases hfb : st1.freeBlocks with _ | ⟨nb, rest⟩
        · simp only [ouichefs_alloc_block, hfb] at hw
          simp at hw
        · simp only [ouichefs_alloc_block, hfb] at hw ⊢
          rcases nb with _ | n
          · simp at hw
          · exact hw

/-- What a successful run of the allocation half guarantees about run
freshness: the chosen run `(b, s)` was entirely free in `b`'s bitmap
beforehand (first-fit case) or `b` was taken fresh from the external
allocator's pool (new-block case); the run's bits are used afterwards;
and on every block outside the pool a used slice stays used — no slice
is ever freed by the write. -/
theorem allocWrite_fresh_spec (fuel : Nat) (st1 : FsState)
    (ino1 : InodeInfo) (ki_pos : Nat) (kbuf : List Nat) (old_size : Nat)
    (stF : FsState) (inoF : InodeInfo) (posF ret : Nat) (hWF1 : FsWF st1)
    (hw : sliceAllocWrite fuel st1 ino1 ki_pos kbuf old_size =
      some (stF, inoF, posF, Except.ok ret)) :
    ∃ b s,
      b < 2 ^ 27 ∧ 1 ≤ s ∧ s + (kbuf.length + 128 - 1) / 128 ≤ 32 ∧
      inoF.index_block = (s <<< 27) ||| b ∧
      (runFree ((st1.disk b).meta.slice_bitmap)
          ((kbuf.length + 128 - 1) / 128) s ∨ b ∈ st1.freeBlocks) ∧
      (∀ k, s ≤ k → k < s + (kbuf.length + 128 - 1) / 128 →
        ((stF.disk b).meta.slice_bitmap).testBit k = false) ∧
      (∀ c k, c ∉ st1.freeBlocks →
        ((st1.disk c).meta.slice_bitmap).testBit k = false →
        ((stF.disk c).meta.slice_bitmap).testBit k = false) := by
  simp only [sliceAllocWrite] at hw
  by_cases hns : 31 < (kbuf.length + 128 - 1) / 128
  · rw [if_pos hns] at hw
    simp at hw
  · rw [if_neg hns] at hw
    cases hsrch : searchSliced st1.disk ((kbuf.length + 128 - 1) / 128) fuel
        st1.sbi.s_free_sliced_blocks with
    | none => rw [hsrch] at hw; simp at hw
    | some o =>
      cases o with
      | some triple =>
        obtain ⟨b, i, disk2⟩ := triple
        simp only [hsrch] at hw
        obtain ⟨hb0, hscan, hdeq, -⟩ :=
          searchSliced_found st1.disk _ fuel _ b i disk2 hsrch
        obtain ⟨hi1, hi2, hfree, hmin⟩ := scanBitmap_some _ _ _ hscan
        have hble : b < 2 ^ 27 :=
          searchSliced_found_bound st1.disk _ fuel _ b i disk2 hsrch
            hWF1.2.1 hWF1.2.2
        have hs31 : i ≤ 31 := by
          rcases Nat.eq_zero_or_pos ((kbuf.length + 128 - 1) / 128) with h0 | h0
          · by_contra hgt
            have := hmin 1 (le_refl 1) (by omega)
            rw [h0] at this
            exact this (runFree_zero _ 1)
          · omega
        obtain ⟨hst, hino, hpos, hret⟩ := quad_eq_fields (Option.some.inj hw)
        have hms : i <<< 27 ||| b < U32 := lor_shift27_lt i b (by omega) hble
        refine ⟨b, i, hble, hi1, by omega, ?_, Or.inl hfree, ?_, ?_⟩
        · rw [finishWrite_ino] at hino
          rw [← hino, Nat.mod_eq_of_lt hms]
        · intro k hk1 hk2
          rw [← hst, finishWrite_disk]
          simp only [hdeq]
          simp [updateDisk]
          rw [testBit_clearRun _ _ _ _ (by omega)]
          have hA : (decide (i ≤ k)) = true := by
            simp only [decide_eq_true_eq]; omega
          have hB : (decide (k < i + (kbuf.length + 127) / 128)) = true := by
            simp only [decide_eq_true_eq]; omega
          rw [hA, hB]
          simp
        · intro c k hc hpre
          rw [← hst, finishWrite_disk]
          simp only [hdeq]
          by_cases hcb : c = b
          · subst hcb
            simp [updateDisk]
            simp only [clearRun, Nat.testBit_and, hpre, Bool.false_and]
          · simp [updateDisk, hcb]
            exact hpre
      | none =>
        simp only [hsrch] at hw
        rcases hfb : st1.freeBlocks with _ | ⟨nb, rest⟩
        · simp only [ouichefs_alloc_block, hfb] at hw
          simp at hw
        · simp only [ouichefs_alloc_block, hfb] at hw
          rcases nb with _ | n
          · simp at hw
          · have hnb := hWF1.1 (n + 1)
              (by rw [hfb]; exact List.mem_cons_self _ _)
            obtain ⟨hst, hino, hpos, hret⟩ := quad_eq_fields (Option.some.inj hw)
            have hms : (1 : Nat) <<< 27 ||| (n + 1) < U32 :=
              lor_shift27_lt 1 (n + 1) (by omega) hnb.2
            refine ⟨n + 1, 1, hnb.2, le_refl 1, by omega, ?_,
              Or.inr (List.mem_cons_self _ _), ?_, ?_⟩
            · rw [finishWrite_ino] at hino
              rw [← hino, Nat.mod_eq_of_lt hms]
            · intro k hk1 hk2
              rw [← hst, finishWrite_disk]
              simp [updateDisk]
              rw [testBit_clearRun _ _ _ _ (by omega)]
              have hA : (decide (1 ≤ k)) = true := by
                simp only [decide_eq_true_eq]; omega
              have hB : (decide (k < 1 + (kbuf.length + 127) / 128)) = true := by
                simp only [decide_eq_true_eq]; omega
              rw [hA, hB]
              simp
            · intro c k hc hpre
              have hcn : c ≠ n + 1 := by
                intro h
                exact hc (by rw [h]; exact List.mem_cons_self _ _)
              rw [← hst, finishWrite_disk]
              simp [updateDisk, hcn]
              exact hpre

/-- C5 (amended): every successful write that does not trigger promotion
performs a fresh first-fit allocation regardless of any existing locator
and of whether the content fits the already reserved run: the same
successful outcome is produced for every value of the inode's locator
field, the chosen run `(b, s)` (`s ≥ 1`) was entirely free beforehand or
lives in a block taken fresh from the external allocator's pool, its bits
are marked used in `b`'s bitmap after the write, and no used slice of any
non-pool block — in particular none of the old run's slices — is ever
freed by the write. -/
theorem C5_fresh_run_each_write (fuel : Nat) (st : FsState)
    (ino : InodeInfo) (ki_pos : Nat) (kbuf : List Nat) (stF : FsState)
    (inoF : InodeInfo) (posF ret : Nat) (hWF : FsWF st)
    (hnc : kbuf.length ≤ 128 ∨ 128 < ino.i_size)
    (hw : ouichefs_write fuel st ino ki_pos kbuf =
      some (stF, inoF, posF, Except.ok ret)) :
    (∀ ib, ouichefs_write fuel st { ino with index_block := ib } ki_pos
        kbuf = some (stF, inoF, posF, Except.ok ret)) ∧
    ∃ b s,
      b < 2 ^ 27 ∧ 1 ≤ s ∧ s + (kbuf.length + 128 - 1) / 128 ≤ 32 ∧
      inoF.index_block = (s <<< 27) ||| b ∧
      (runFree ((st.disk b).meta.slice_bitmap)
          ((kbuf.length + 128 - 1) / 128) s ∨ b ∈ st.freeBlocks) ∧
      (∀ k, s ≤ k → k < s + (kbuf.length + 128 - 1) / 128 →
        ((stF.disk b).meta.slice_bitmap).testBit k = false) ∧
      (∀ c k, c ∉ st.freeBlocks →
        ((st.disk c).meta.slice_bitmap).testBit k = false →
        ((stF.disk c).meta.slice_bitmap).testBit k = false) := by
  have hcv : ¬(128 < kbuf.length ∧ ino.i_size ≤ 128 ∧
      ino.index_block ≠ 0) := by
    rcases hnc with h | h
    · exact fun hc => absurd hc.1 (by omega)
    · exact fun hc => absurd hc.2.1 (by omega)
  simp only [ouichefs_write] at hw
  by_cases hmax : OUICHEFS_MAX_FILESIZE < kbuf.length
  · rw [if_pos hmax] at hw
    simp at hw
  · rw [if_neg hmax, if_neg hcv] at hw
    refine ⟨?_, ?_⟩
    · intro ib
      have hcv2 : ¬(128 < kbuf.length ∧
          ({ ino with index_block := ib } : InodeInfo).i_size ≤ 128 ∧
          ({ ino with index_block := ib } : InodeInfo).index_block ≠ 0) := by
        intro hc
        rcases hc with ⟨h1, h2, h3⟩
        have h2' : ino.i_size ≤ 128 := h2
        rcases hnc with h | h
        · omega
        · omega
      simp only [ouichefs_write]
      rw [if_neg hmax, if_neg hcv2]
      exact sliceAllocWrite_ok_ino fuel st ino { ino with index_block := ib }
        ki_pos kbuf ino.i_size stF inoF posF ret hw
    · exact allocWrite_fresh_spec fuel st ino ki_pos kbuf ino.i_size stF
        inoF posF ret hWF hw

def demoW5 : Option (FsState × InodeInfo × Nat × Except WErr Nat) :=
  ouichefs_write 2 demoSt5 demoIno5 0 demoKbuf5

def demoW5st : FsState :=
  match demoW5 with | some (s, _, _, _) => s | none => demoSt5

def demoW5ino : InodeInfo :=
  match demoW5 with | some (_, i, _, _) => i | none => demoIno5

def demoW5pos : Nat :=
  match demoW5 with | some (_, _, p, _) => p | none => 0

def demoW5ret : Nat :=
  match demoW5 with | some (_, _, _, Except.ok r) => r | _ => 0

theorem demoW5_eq : ouichefs_write 2 demoSt5 demoIno5 0 demoKbuf5 =
    some (demoW5st, demoW5ino, demoW5pos, Except.ok demoW5ret) := rfl

theorem demoSt5_WF : FsWF demoSt5 := by
  refine ⟨by decide, by norm_num [demoSt5], ?_⟩
  intro c
  simp only [demoSt5]
  by_cases hc : c = 2 <;> simp [hc, zeroBlock]

/-- Witness for the amended C5: rewriting the demo file (whose 10 bytes
fit its existing run) produces the same successful outcome for every
locator value and allocates a fresh run, freeing nothing. -/
theorem C5_fresh_run_each_write_witness :
    (∀ ib, ouichefs_write 2 demoSt5 { demoIno5 with index_block := ib } 0
        demoKbuf5 = some (demoW5st, demoW5ino, demoW5pos,
          Except.ok demoW5ret)) ∧
    ∃ b s,
      b < 2 ^ 27 ∧ 1 ≤ s ∧ s + (demoKbuf5.length + 128 - 1) / 128 ≤ 32 ∧
      demoW5ino.index_block = (s <<< 27) ||| b ∧
      (runFree ((demoSt5.disk b).meta.slice_bitmap)
          ((demoKbuf5.length + 128 - 1) / 128) s ∨
        b ∈ demoSt5.freeBlocks) ∧
      (∀ k, s ≤ k → k < s + (demoKbuf5.length + 128 - 1) / 128 →
        ((demoW5st.disk b).meta.slice_bitmap).testBit k = false) ∧
      (∀ c k, c ∉ demoSt5.freeBlocks →
        ((demoSt5.disk c).meta.slice_bitmap).testBit k = false →
        ((demoW5st.disk c).meta.slice_bitmap).testBit k = false) :=
  C5_fresh_run_each_write 2 demoSt5 demoIno5 0 demoKbuf5 demoW5st demoW5ino
    demoW5pos demoW5ret demoSt5_WF (Or.inl (by decide)) demoW5_eq

/-! ### Claim C6 : the run-length bounds check -/

/-- Counterexample to C6 as stated: a zero-length write (run length 0) is
not rejected: it succeeds with return 0, allocates a fresh sliced block,
sets the file's locator to `(block 5, slice 1)` and counts the file as a
small file. -/
theorem C6_zero_length_cex :
    (ouichefs_write 1 demoSt demoIno 0 []).map
      (fun r => (r.2.1.index_block, decide (r.2.2.2 = Except.ok 0),
                 r.1.sbi.small_files, r.1.sbi.s_free_sliced_blocks)) =
      some ((1 <<< 27) ||| 5, true, 1, 5) := by decide

/-- C6 (amended): a request whose run length exceeds 31 slices is rejected
with the too-large error and — provided it does not trigger promotion
first — no allocation or file-state mutation occurs (the returned state,
inode and position are exactly the inputs).  A run length of 0 is not
rejected (see the counterexample). -/
theorem C6_overlarge_rejected (fuel : Nat) (st : FsState) (ino : InodeInfo)
    (ki_pos : Nat) (kbuf : List Nat)
    (hbig : 31 < (kbuf.length + 128 - 1) / 128)
    (hnc : ¬(128 < kbuf.length ∧ ino.i_size ≤ 128 ∧ ino.index_block ≠ 0)) :
    ouichefs_write fuel st ino ki_pos kbuf =
      some (st, ino, ki_pos, Except.error WErr.EFBIG) := by
  simp only [ouichefs_write]
  by_cases hmax : OUICHEFS_MAX_FILESIZE < kbuf.length
  · rw [if_pos hmax]
  · rw [if_neg hmax, if_neg hnc]
    show sliceAllocWrite fuel st ino ki_pos kbuf ino.i_size =
      some (st, ino, ki_pos, Except.error WErr.EFBIG)
    simp only [sliceAllocWrite]
    rw [if_pos hbig]

/-- Witness for the amended C6: a 3969-byte write (32 slices) to a fresh
file is rejected with no state change. -/
theorem C6_overlarge_rejected_witness :
    ouichefs_write 1 demoSt demoIno 0 (List.replicate 3969 0) =
      some (demoSt, demoIno, 0, Except.error WErr.EFBIG) :=
  C6_overlarge_rejected 1 demoSt demoIno 0 (List.replicate 3969 0)
    (by rw [List.length_replicate]; norm_num) (fun h => h.2.2 rfl)

/-! ### Claim C2 : what a write past the threshold actually leaves behind -/

/-- A volume with the 33-byte file of `demoIno3` at (block 2, slice 1) and
two blocks (3 and 4) available for promotion. -/
def demoSt2 : FsState :=
  { sbi := { s_free_sliced_blocks := 2, sliced_blocks := 1,
             total_free_slices := 30, small_files := 1,
             total_data_size := 33, total_used_size := 4096 },
    disk := fun c =>
      if c = 2 then
        { meta := { slice_bitmap := 0xFFFFFFFC, next_partial_block := 0 },
          bytes := fun a => if 128 ≤ a ∧ a < 161 then 7 else 0,
          index := fun _ => 0 }
      else zeroBlock,
    freeBlocks := [3, 4] }

def demoIno2 : InodeInfo :=
  { index_block := (1 <<< 27) ||| 2, i_size := 33, i_blocks := 1 }

def demoKbuf2 : List Nat := List.replicate 200 9

def demoW2 : Option (FsState × InodeInfo × Nat × Except WErr Nat) :=
  ouichefs_write 2 demoSt2 demoIno2 0 demoKbuf2

def demoW2st : FsState :=
  match demoW2 with | some (s, _, _, _) => s | none => demoSt2

def demoW2ino : InodeInfo :=
  match demoW2 with | some (_, i, _, _) => i | none => demoIno2

def demoW2pos : Nat :=
  match demoW2 with | some (_, _, p, _) => p | none => 0

def demoW2ret : Nat :=
  match demoW2 with | some (_, _, _, Except.ok r) => r | _ => 0

/-- C2: growing the 33-byte slice-resident file to 200 bytes does invoke
promotion first (the write consumes blocks 3 and 4, wires index block 3's
entry 0 to data block 4, and copies the old content — byte value 7 — into
block 4), but the write then continues on the multi-slice path, which
allocates a fresh 2-slice run and overwrites the inode's pointer field
with a slice locator (slice index 1 of block 2, `i_blocks = 1`) — not the
indexed-block pointer 3 that promotion installed; the promoted blocks are
left referenced by nothing. -/
theorem C2_promotion_result_discarded :
    ouichefs_write 2 demoSt2 demoIno2 0 demoKbuf2 =
      some (demoW2st, demoW2ino, demoW2pos, Except.ok demoW2ret) ∧
    demoW2ino.index_block = (1 <<< 27) ||| 2 ∧
    demoW2ino.index_block >>> 27 = 1 ∧
    demoW2ino.i_blocks = 1 ∧
    demoW2ret = 200 ∧
    demoW2st.freeBlocks = [] ∧
    (demoW2st.disk 3).index 0 = 4 ∧
    (demoW2st.disk 4).bytes 0 = 7 := by
  refine ⟨rfl, ?_, ?_, ?_, ?_, ?_, ?_, ?_⟩ <;> decide

end OuicheFS
